import Mathlib

/-
Verification of the device dependency graph and lifecycle core of
drivers/base/core.c: device registration (device_add / device_del), device
links (device_link_add, device_links_check_suppliers,
device_links_driver_bound, device_links_purge), the dependency-cycle check
(device_is_dependent) and the ordering-list maintenance
(device_reorder_to_tail).

Devices are identified by natural numbers.  The single global Ordering List
models the devices_kset list (together with the dpm_list, which the source
keeps in lockstep with it on every successful path).  Reference counts are
modelled as a map from device to count.  The unbounded recursions of
device_is_dependent and device_reorder_to_tail are modelled with explicit
fuel; in every acyclic state the fuel bound devFuel (one more than the
number of initialized devices) is large enough that the fuel never runs
out, which is proved and used below.
-/

open List

/-- Possible states of a device link, mirroring enum device_link_state. -/
inductive DeviceLinkState
  | DL_STATE_NONE
  | DL_STATE_DORMANT
  | DL_STATE_AVAILABLE
  | DL_STATE_CONSUMER_PROBE
  | DL_STATE_ACTIVE
  | DL_STATE_SUPPLIER_UNBIND
deriving DecidableEq, Repr

/-- Driver-binding status of a device, mirroring enum dl_dev_state
(the dev->links.status field). -/
inductive DlDevState
  | DL_DEV_NO_DRIVER
  | DL_DEV_PROBING
  | DL_DEV_DRIVER_BOUND
  | DL_DEV_UNBINDING
deriving DecidableEq, Repr

/-- Device link flags DL_FLAG_STATELESS, DL_FLAG_AUTOREMOVE,
DL_FLAG_PM_RUNTIME, DL_FLAG_RPM_ACTIVE. -/
structure LinkFlags where
  stateless : Bool
  autoremove : Bool
  pm_runtime : Bool
  rpm_active : Bool
deriving DecidableEq, Repr

/-- One struct device_link: an edge from a consumer device to a supplier
device carrying flags and a state-machine value.  The id field stands for
the identity of the allocated link object. -/
structure Link where
  id : Nat
  consumer : Nat
  supplier : Nat
  flags : LinkFlags
  status : DeviceLinkState
deriving DecidableEq, Repr

/-- Global state of the driver core.  devs lists the devices on which
device_initialize has been called; order is the global Ordering List
(devices_kset order); children gives each device's list of children
(klist_children); links is the global collection of device links, in
creation order, so that filtering it by supplier or consumer yields the
per-device links.consumers and links.suppliers lists in their insertion
order; links_status is each device's dev->links.status;
parent records dev->parent for registered devices; refcnt the reference
count; nextId the identity for the next allocated link. -/
structure CoreState where
  devs : List Nat
  order : List Nat
  children : Nat → List Nat
  links : List Link
  links_status : Nat → DlDevState
  parent : Nat → Option Nat
  refcnt : Nat → Nat
  nextId : Nat

/-- The devices reachable from dev through one consumer link: the
consumers of the links whose supplier is dev (dev->links.consumers walked
through link->consumer). -/
def CoreState.consumersOf (s : CoreState) (dev : Nat) : List Nat :=
  (s.links.filter (fun l => l.supplier == dev)).map (fun l => l.consumer)

/-- All devices one dependency step below dev: its children followed by
the consumers of its links, in the order the source visits them. -/
def deviceRoots (s : CoreState) (dev : Nat) : List Nat :=
  s.children dev ++ s.consumersOf dev

/-- Fuel bound used for the recursions of device_is_dependent and
device_reorder_to_tail: in an acyclic state no dependency path can visit
more devices than have been initialized, so this bound is never hit. -/
def devFuel (s : CoreState) : Nat := s.devs.length + 1

/-- device_is_dependent: depth-first search from dev over its children and
the consumers of its links, looking for target; returns true when dev is
target itself or target is reachable.  The source recursion is unbounded;
fuel makes it total. -/
def device_is_dependent (s : CoreState) : Nat → Nat → Nat → Bool
  | 0, _, _ => false
  | fuel+1, dev, target =>
    dev == target ||
    (s.children dev).any (fun c => device_is_dependent s fuel c target) ||
    (s.consumersOf dev).any (fun c => c == target || device_is_dependent s fuel c target)

/-- devices_kset_move_last guarded by device_is_registered: a device that
is in the Ordering List is moved to its tail, a not-yet-registered device
is left alone. -/
def moveLast (ord : List Nat) (dev : Nat) : List Nat :=
  if dev ∈ ord then ord.erase dev ++ [dev] else ord

/-- Apply a sequence of moveLast moves from left to right. -/
def applyMoves (ord : List Nat) (vs : List Nat) : List Nat :=
  vs.foldl moveLast ord

/-- The sequence of devices visited (and moved, when registered) by
device_reorder_to_tail: the device itself, then recursively its children,
then recursively the consumers of its links. -/
def visitSeq (s : CoreState) : Nat → Nat → List Nat
  | 0, _ => []
  | fuel+1, dev => dev :: (deviceRoots s dev).flatMap (visitSeq s fuel)

/-- device_reorder_to_tail: move dev to the tail of the Ordering List (when
registered), then recursively reorder its children and the consumers of
its links. -/
def device_reorder_to_tail (s : CoreState) : Nat → Nat → List Nat → List Nat
  | 0, _, ord => ord
  | fuel+1, dev, ord =>
    let ord1 := moveLast ord dev
    let ord2 := (s.children dev).foldl (fun o c => device_reorder_to_tail s fuel c o) ord1
    (s.consumersOf dev).foldl (fun o c => device_reorder_to_tail s fuel c o) ord2

/-- device_pm_initialized / device_is_registered: the device is in the
Ordering List. -/
abbrev device_pm_initialized (s : CoreState) (dev : Nat) : Prop := dev ∈ s.order

/-- The distinguishable failure cases of device_link_add (the source
returns NULL in each of them; the spec names them). -/
inductive LinkErr
  | invalidFlags
  | supplierNotReady
  | dependencyCycle
deriving DecidableEq, Repr

/-- Bump the reference count of a device (get_device). -/
def getRef (dev : Nat) (r : Nat → Nat) : Nat → Nat :=
  fun d => if d = dev then r d + 1 else r d

/-- Drop the reference count of a device (put_device). -/
def putRef (dev : Nat) (r : Nat → Nat) : Nat → Nat :=
  fun d => if d = dev then r d - 1 else r d

/-- get_device on a nullable device pointer. -/
def getRefOpt (o : Option Nat) (r : Nat → Nat) : Nat → Nat :=
  match o with
  | Option.none => r
  | some p => getRef p r

/-- put_device on a nullable device pointer. -/
def putRefOpt (o : Option Nat) (r : Nat → Nat) : Nat → Nat :=
  match o with
  | Option.none => r
  | some p => putRef p r

/-- The initial state of a newly created link, computed by device_link_add
from the link flags and the two devices' links.status. -/
def device_link_init_status (flags : LinkFlags) (sup cons : DlDevState) : DeviceLinkState :=
  if flags.stateless then DeviceLinkState.DL_STATE_NONE
  else
    match sup with
    | DlDevState.DL_DEV_DRIVER_BOUND =>
      match cons with
      | DlDevState.DL_DEV_PROBING => DeviceLinkState.DL_STATE_CONSUMER_PROBE
      | DlDevState.DL_DEV_DRIVER_BOUND => DeviceLinkState.DL_STATE_ACTIVE
      | _ => DeviceLinkState.DL_STATE_AVAILABLE
    | DlDevState.DL_DEV_UNBINDING => DeviceLinkState.DL_STATE_SUPPLIER_UNBIND
    | _ => DeviceLinkState.DL_STATE_DORMANT

/-- device_link_add: create (or return the existing) link from consumer to
supplier.  Mirrors the source: the STATELESS/AUTOREMOVE flag check, the
supplier-registered and reverse-dependency checks, the search of the
supplier's consumers list for an existing link to this consumer, the
initial-state switch on the two devices' links.status, the
reorder-to-tail of the consumer, and the insertion of the new link at the
tails of the per-device lists (modelled by appending to the global links
list). -/
def device_link_add (s : CoreState) (consumer supplier : Nat) (flags : LinkFlags) :
    CoreState × Except LinkErr Link :=
  if flags.stateless && flags.autoremove then (s, Except.error LinkErr.invalidFlags)
  else if ¬ device_pm_initialized s supplier then (s, Except.error LinkErr.supplierNotReady)
  else if device_is_dependent s (devFuel s) consumer supplier then
    (s, Except.error LinkErr.dependencyCycle)
  else
    match s.links.find? (fun l => l.supplier == supplier && l.consumer == consumer) with
    | some l => (s, Except.ok l)
    | Option.none =>
      let link : Link :=
        { id := s.nextId, consumer := consumer, supplier := supplier, flags := flags,
          status := device_link_init_status flags (s.links_status supplier)
            (s.links_status consumer) }
      let ord' := device_reorder_to_tail s (devFuel s) consumer s.order
      ({ s with order := ord',
                links := s.links ++ [link],
                refcnt := getRef consumer (getRef supplier s.refcnt),
                nextId := s.nextId + 1 },
       Except.ok link)

/-- device_links_driver_bound: after a successful probe of dev, its
consumer links (dev as supplier) become AVAILABLE and its supplier links
(dev as consumer) become ACTIVE, skipping STATELESS links, and
dev->links.status becomes DRIVER_BOUND. -/
def device_links_driver_bound (s : CoreState) (dev : Nat) : CoreState :=
  let ls1 := s.links.map (fun l =>
    if l.supplier == dev && !l.flags.stateless then
      { l with status := DeviceLinkState.DL_STATE_AVAILABLE } else l)
  let ls2 := ls1.map (fun l =>
    if l.consumer == dev && !l.flags.stateless then
      { l with status := DeviceLinkState.DL_STATE_ACTIVE } else l)
  { s with links := ls2,
           links_status := fun d =>
             if d = dev then DlDevState.DL_DEV_DRIVER_BOUND else s.links_status d }

/-- device_links_missing_supplier: reset every link to a supplier of dev
that is in CONSUMER_PROBE back to AVAILABLE. -/
def device_links_missing_supplier (dev : Nat) (ls : List Link) : List Link :=
  ls.map (fun l =>
    if l.consumer == dev && l.status == DeviceLinkState.DL_STATE_CONSUMER_PROBE then
      { l with status := DeviceLinkState.DL_STATE_AVAILABLE } else l)

/-- The loop of device_links_check_suppliers over the global links list:
non-stateless links whose consumer is dev are checked for AVAILABLE and
marked CONSUMER_PROBE; at the first one that is not AVAILABLE the loop
stops (links further on stay untouched) and reports failure. -/
def checkSuppliersLoop (dev : Nat) : List Link → List Link × Bool
  | [] => ([], true)
  | l :: rest =>
    if l.consumer == dev && !l.flags.stateless then
      if l.status != DeviceLinkState.DL_STATE_AVAILABLE then (l :: rest, false)
      else
        let r := checkSuppliersLoop dev rest
        ({ l with status := DeviceLinkState.DL_STATE_CONSUMER_PROBE } :: r.1, r.2)
    else
      let r := checkSuppliersLoop dev rest
      (l :: r.1, r.2)

/-- Outcome signal of device_links_check_suppliers (-EPROBE_DEFER in the
source, RetryLater in the spec). -/
inductive ProbeErr
  | retryLater
deriving DecidableEq, Repr

/-- device_links_check_suppliers: walk dev's links to suppliers; if one of
the non-stateless ones is not AVAILABLE, call
device_links_missing_supplier and fail with retryLater; either way set
dev->links.status to PROBING. -/
def device_links_check_suppliers (s : CoreState) (dev : Nat) : CoreState × Option ProbeErr :=
  let r := checkSuppliersLoop dev s.links
  let ls := if r.2 then r.1 else device_links_missing_supplier dev r.1
  ({ s with links := ls,
            links_status := fun d =>
              if d = dev then DlDevState.DL_DEV_PROBING else s.links_status d },
   if r.2 then Option.none else some ProbeErr.retryLater)

/-- device_link_free: drop the references the link held on its two
endpoints. -/
def device_link_free_refs (l : Link) (r : Nat → Nat) : Nat → Nat :=
  putRef l.supplier (putRef l.consumer r)

/-- The links device_links_purge deletes for dev, in deletion order: first
dev's links to suppliers in reverse order, then its remaining links to
consumers in reverse order (a self link was already deleted by the first
loop). -/
def purgedLinks (s : CoreState) (dev : Nat) : List Link :=
  (s.links.filter (fun l => l.consumer == dev)).reverse ++
  (s.links.filter (fun l => l.supplier == dev && l.consumer != dev)).reverse

/-- device_links_purge: delete every remaining link in which dev is either
endpoint, dropping the references each link held. -/
def device_links_purge (s : CoreState) (dev : Nat) : CoreState :=
  { s with links := s.links.filter (fun l => l.consumer != dev && l.supplier != dev),
           refcnt := (purgedLinks s dev).foldl (fun r l => device_link_free_refs l r) s.refcnt }

/-- The teardown steps of device_del that touch the graph state, in the
order the source performs them. -/
inductive DelStep
  | detachFromParent
  | purgeLink (id : Nat)
  | removeFromOrder
  | releaseParentRef
deriving DecidableEq, Repr

/-- device_del: detach dev from its parent's children list (klist_del,
dropping the reference the list held on dev), purge all of dev's links,
remove dev from the Ordering List (kobject_del), and release the
reference on the parent.  The second component records these steps in the
order they happen. -/
def device_del (s : CoreState) (dev : Nat) : CoreState × List DelStep :=
  let par := s.parent dev
  let s1 :=
    match par with
    | Option.none => s
    | some p =>
      { s with children := fun q => if q = p then (s.children q).erase dev else s.children q,
               refcnt := putRef dev s.refcnt }
  let t1 : List DelStep :=
    match par with
    | Option.none => []
    | some _ => [DelStep.detachFromParent]
  let s2 := device_links_purge s1 dev
  let t2 := (purgedLinks s1 dev).map (fun l => DelStep.purgeLink l.id)
  let s3 := { s2 with order := s2.order.erase dev }
  let s4 := { s3 with refcnt := putRefOpt par s3.refcnt }
  (s4, t1 ++ t2 ++ [DelStep.removeFromOrder, DelStep.releaseParentRef])

/-- The error labels of device_add, one per fallible step of the source in
order (goto targets name_error, parent_error, Error, attrError,
SymlinkError, AttrsError, BusError, DPMError, DevAttrError,
SysEntryError). -/
inductive AddErr
  | invalidName
  | parentKobjError
  | kobjectAddError
  | ueventFileError
  | symlinkError
  | attrsError
  | busAddError
  | dpmSysfsError
  | devtFileError
  | sysEntryError
deriving DecidableEq, Repr

/-- Outcomes of the external steps device_add performs (sysfs file
creation, bus registration and so on); each may fail independently. -/
structure AddEnv where
  name_ok : Bool
  parent_kobj_ok : Bool
  kobject_add_ok : Bool
  uevent_file_ok : Bool
  symlink_ok : Bool
  attrs_ok : Bool
  bus_add_ok : Bool
  dpm_sysfs_ok : Bool
  has_devt : Bool
  devt_file_ok : Bool
  sys_entry_ok : Bool
deriving DecidableEq, Repr

/-- An environment in which every external step of device_add succeeds. -/
def allOkEnv : AddEnv :=
  { name_ok := true, parent_kobj_ok := true, kobject_add_ok := true,
    uevent_file_ok := true, symlink_ok := true, attrs_ok := true,
    bus_add_ok := true, dpm_sysfs_ok := true, has_devt := false,
    devt_file_ok := true, sys_entry_ok := true }

/-- device_add: register dev under parent.  Mirrors the source's order of
effects: name resolution, get_device(parent), kobject_add (which links
dev into the Ordering List; it fails when dev is already registered),
the fallible sysfs/bus/dpm steps, the devt file steps, and finally the
insertion into the parent's children list, which holds a reference on
dev.  Every error path unwinds exactly what had been done (kobject_del
removes dev from the Ordering List again, put_device drops the parent
reference). -/
def device_add (s : CoreState) (dev : Nat) (parent : Option Nat) (env : AddEnv) :
    CoreState × Option AddErr :=
  if !env.name_ok then (s, some AddErr.invalidName)
  else if !env.parent_kobj_ok then
    ({ s with refcnt := putRefOpt parent (getRefOpt parent s.refcnt) },
     some AddErr.parentKobjError)
  else if dev ∈ s.order ∨ env.kobject_add_ok = false then
    ({ s with refcnt := putRefOpt parent (getRefOpt parent s.refcnt) },
     some AddErr.kobjectAddError)
  else if !env.uevent_file_ok then
    ({ s with order := (s.order ++ [dev]).erase dev,
              refcnt := putRefOpt parent (getRefOpt parent s.refcnt) },
     some AddErr.ueventFileError)
  else if !env.symlink_ok then
    ({ s with order := (s.order ++ [dev]).erase dev,
              refcnt := putRefOpt parent (getRefOpt parent s.refcnt) },
     some AddErr.symlinkError)
  else if !env.attrs_ok then
    ({ s with order := (s.order ++ [dev]).erase dev,
              refcnt := putRefOpt parent (getRefOpt parent s.refcnt) },
     some AddErr.attrsError)
  else if !env.bus_add_ok then
    ({ s with order := (s.order ++ [dev]).erase dev,
              refcnt := putRefOpt parent (getRefOpt parent s.refcnt) },
     some AddErr.busAddError)
  else if !env.dpm_sysfs_ok then
    ({ s with order := (s.order ++ [dev]).erase dev,
              refcnt := putRefOpt parent (getRefOpt parent s.refcnt) },
     some AddErr.dpmSysfsError)
  else if env.has_devt && !env.devt_file_ok then
    ({ s with order := (s.order ++ [dev]).erase dev,
              refcnt := putRefOpt parent (getRefOpt parent s.refcnt) },
     some AddErr.devtFileError)
  else if env.has_devt && !env.sys_entry_ok then
    ({ s with order := (s.order ++ [dev]).erase dev,
              refcnt := putRefOpt parent (getRefOpt parent s.refcnt) },
     some AddErr.sysEntryError)
  else
    ({ s with
        order := s.order ++ [dev],
        refcnt := (match parent with
                   | Option.none => getRefOpt parent s.refcnt
                   | some _ => getRef dev (getRefOpt parent s.refcnt)),
        children := (match parent with
                     | Option.none => s.children
                     | some p => fun q => if q = p then s.children q ++ [dev] else s.children q),
        parent := fun q => if q = dev then parent else s.parent q },
     Option.none)

/-- The state with no devices: nothing initialized, nothing registered. -/
def initState : CoreState :=
  { devs := [], order := [], children := fun _ => [], links := [],
    links_status := fun _ => DlDevState.DL_DEV_NO_DRIVER,
    parent := fun _ => Option.none, refcnt := fun _ => 0, nextId := 0 }

/-- device_initialize: the device becomes usable (its links lists and
links.status are set up) but not graph-visible. -/
def addDevice (s : CoreState) (dev : Nat) : CoreState :=
  { s with devs := dev :: s.devs }

/-- One dependency edge: b is a child of a, or b is the consumer of a link
whose supplier is a.  This is the relation device_is_dependent searches
and device_reorder_to_tail walks. -/
def DepEdge (s : CoreState) (a b : Nat) : Prop :=
  b ∈ s.children a ∨ b ∈ s.consumersOf a

/-- b depends (reflexively, transitively) on a. -/
def Reaches (s : CoreState) : Nat → Nat → Prop :=
  Relation.ReflTransGen (DepEdge s)

/-- The dependency relation (containment plus links) has no nonempty
cycle. -/
def Acyclic (s : CoreState) : Prop :=
  ∀ a, ¬ Relation.TransGen (DepEdge s) a a

/-- a occupies a strictly earlier position than b in ord. -/
def Before (ord : List Nat) (a b : Nat) : Prop :=
  [a, b] <+ ord

/-- An explicit dependency path: ChainTo s a l b holds when l lists the
devices after a on a path of dependency edges from a to b. -/
inductive ChainTo (s : CoreState) : Nat → List Nat → Nat → Prop
  | nil (a : Nat) : ChainTo s a [] a
  | cons {a b c : Nat} {l : List Nat} :
      DepEdge s a b → ChainTo s b l c → ChainTo s a (b :: l) c

/-- Structural invariant of every state reachable through successful
device_initialize, device_add and device_link_add calls. -/
structure CoreInv (s : CoreState) : Prop where
  nodup_order : s.order.Nodup
  order_devs : ∀ d ∈ s.order, d ∈ s.devs
  link_consumer_devs : ∀ l ∈ s.links, l.consumer ∈ s.devs
  child_devs : ∀ p c, c ∈ s.children p → c ∈ s.devs
  child_parent_reg : ∀ p c, c ∈ s.children p → p ∈ s.order
  child_reg : ∀ p c, c ∈ s.children p → c ∈ s.order
  supplier_reg : ∀ l ∈ s.links, l.supplier ∈ s.order
  id_bound : ∀ l ∈ s.links, l.id < s.nextId
  links_dedup : s.links.Pairwise
    (fun l1 l2 => ¬(l1.consumer = l2.consumer ∧ l1.supplier = l2.supplier))
  acyclic : Acyclic s
  link_order : ∀ l ∈ s.links, l.consumer ∈ s.order → Before s.order l.supplier l.consumer
  child_order : ∀ p c, c ∈ s.children p → Before s.order p c

/-- Whether a device_link_add outcome is a success. -/
def linkOk (r : Except LinkErr Link) : Bool :=
  match r with
  | Except.ok _ => true
  | Except.error _ => false

/-- The states reachable from the empty state through successful
device_initialize, device_add (register) and device_link_add calls; the
side conditions on register say that the call does not crash: the device
was initialized and the parent, when given, is itself registered. -/
inductive Reachable : CoreState → Prop
  | init : Reachable initState
  | newDevice {s : CoreState} {d : Nat} :
      Reachable s → d ∉ s.devs → Reachable (addDevice s d)
  | register {s : CoreState} {dev : Nat} {parent : Option Nat} {env : AddEnv} :
      Reachable s → dev ∈ s.devs →
      (∀ p, parent = some p → p ∈ s.order) →
      (device_add s dev parent env).2 = Option.none →
      Reachable (device_add s dev parent env).1
  | addLink {s : CoreState} {c su : Nat} {flags : LinkFlags} :
      Reachable s → c ∈ s.devs → su ∈ s.devs →
      linkOk (device_link_add s c su flags).2 = true →
      Reachable (device_link_add s c su flags).1

/-- Membership in consumersOf unfolded to the underlying link. -/
theorem mem_consumersOf {s : CoreState} {a b : Nat} :
    b ∈ s.consumersOf a ↔ ∃ l ∈ s.links, l.supplier = a ∧ l.consumer = b := by
  simp only [CoreState.consumersOf, List.mem_map, List.mem_filter, beq_iff_eq]
  constructor
  · rintro ⟨l, ⟨hl, hsup⟩, hcons⟩
    exact ⟨l, hl, hsup, hcons⟩
  · rintro ⟨l, hl, hsup, hcons⟩
    exact ⟨l, ⟨hl, hsup⟩, hcons⟩

/-- A dependency edge is exactly membership in deviceRoots. -/
theorem depEdge_iff_roots {s : CoreState} {a b : Nat} :
    DepEdge s a b ↔ b ∈ deviceRoots s a := by
  simp [DepEdge, deviceRoots]

/-- The dependency relation only relates edge targets that are initialized
devices. -/
def EdgeClosed (s : CoreState) : Prop :=
  ∀ a b, DepEdge s a b → b ∈ s.devs

/-- An acyclic state has no self edge. -/
theorem no_self_edge {s : CoreState} (h : Acyclic s) {a : Nat} : ¬ DepEdge s a a :=
  fun he => h a (Relation.TransGen.single he)

/-- A chain can be extended by one edge at its end. -/
theorem ChainTo.snoc {s : CoreState} {a b c : Nat} {l : List Nat}
    (h : ChainTo s a l b) (he : DepEdge s b c) : ChainTo s a (l ++ [c]) c := by
  induction h with
  | nil a => exact ChainTo.cons he (ChainTo.nil c)
  | cons hd _ ih => exact ChainTo.cons hd (ih he)

/-- Reachability is equivalent to the existence of an explicit chain. -/
theorem reaches_iff_chain {s : CoreState} {a b : Nat} :
    Reaches s a b ↔ ∃ l, ChainTo s a l b := by
  constructor
  · intro h
    induction h with
    | refl => exact ⟨[], ChainTo.nil a⟩
    | tail _ he ih =>
      obtain ⟨l, hl⟩ := ih
      exact ⟨l ++ [_], hl.snoc he⟩
  · rintro ⟨l, hl⟩
    induction hl with
    | nil a => exact Relation.ReflTransGen.refl
    | cons hd _ ih => exact Relation.ReflTransGen.head hd ih

/-- Every member of a chain is transitively reachable from its start. -/
theorem chain_mem_transGen {s : CoreState} {a b x : Nat} {l : List Nat}
    (h : ChainTo s a l b) (hx : x ∈ l) : Relation.TransGen (DepEdge s) a x := by
  induction h with
  | nil a => cases hx
  | cons hd htl ih =>
    rcases List.mem_cons.mp hx with rfl | hx'
    · exact Relation.TransGen.single hd
    · exact Relation.TransGen.head hd (ih hx')

/-- Cutting a chain at an interior element leaves a chain from there. -/
theorem chain_suffix {s : CoreState} {a b x : Nat} {l₁ l₂ : List Nat}
    (h : ChainTo s a (l₁ ++ x :: l₂) b) : ChainTo s x l₂ b := by
  induction l₁ generalizing a with
  | nil => cases h with | cons _ ht => exact ht
  | cons y t ih => cases h with | cons _ ht => exact ih ht

/-- Interior elements of a chain are edge targets, hence devices. -/
theorem chain_mem_devs {s : CoreState} (hcl : EdgeClosed s) {a b x : Nat} {l : List Nat}
    (h : ChainTo s a l b) (hx : x ∈ l) : x ∈ s.devs := by
  induction h with
  | nil a => cases hx
  | cons hd _ ih =>
    rcases List.mem_cons.mp hx with rfl | hx'
    · exact hcl _ _ hd
    · exact ih hx'

/-- A list that is not nodup has an element that reappears later. -/
theorem not_nodup_split {l : List Nat} (h : ¬ l.Nodup) :
    ∃ x l₁ l₂, l = l₁ ++ x :: l₂ ∧ x ∈ l₂ := by
  induction l with
  | nil => exact absurd List.nodup_nil h
  | cons y t ih =>
    by_cases hy : y ∈ t
    · exact ⟨y, [], t, rfl, hy⟩
    · have ht : ¬ t.Nodup := fun hnd => h (List.nodup_cons.mpr ⟨hy, hnd⟩)
      obtain ⟨x, l₁, l₂, heq, hx⟩ := ih ht
      exact ⟨x, y :: l₁, l₂, by simp [heq], hx⟩

/-- In an acyclic state the devices along a chain are pairwise distinct. -/
theorem chain_nodup {s : CoreState} (hacy : Acyclic s) {a b : Nat} {l : List Nat}
    (h : ChainTo s a l b) : (a :: l).Nodup := by
  by_contra hnd
  by_cases ha : a ∈ l
  · exact hacy a (chain_mem_transGen h ha)
  · have hl : ¬ l.Nodup := fun hln => hnd (List.nodup_cons.mpr ⟨ha, hln⟩)
    obtain ⟨x, l₁, l₂, heq, hx⟩ := not_nodup_split hl
    subst heq
    exact hacy x (chain_mem_transGen (chain_suffix h) hx)

/-- In an acyclic, edge-closed state a chain from an initialized device has
at most as many devices as have been initialized. -/
theorem chain_length_bound {s : CoreState} (hacy : Acyclic s) (hcl : EdgeClosed s)
    {a b : Nat} {l : List Nat} (ha : a ∈ s.devs) (h : ChainTo s a l b) :
    l.length + 1 ≤ s.devs.length := by
  have hnd : (a :: l).Nodup := chain_nodup hacy h
  have hsub : (a :: l) ⊆ s.devs := by
    intro x hx
    rcases List.mem_cons.mp hx with rfl | hx'
    · exact ha
    · exact chain_mem_devs hcl h hx'
  have h1 : (a :: l).toFinset.card = (a :: l).length := List.toFinset_card_of_nodup hnd
  have h2 : (a :: l).toFinset ⊆ s.devs.toFinset := by
    intro x hx
    simp only [List.mem_toFinset] at *
    exact hsub hx
  have h3 := Finset.card_le_card h2
  have h4 := s.devs.toFinset_card_le
  simp only [h1, List.length_cons] at h3
  omega

/-- Soundness of the dependency search: a true answer means the target is
the start itself or reachable from it. -/
theorem dependent_sound {s : CoreState} {fuel a b : Nat}
    (h : device_is_dependent s fuel a b = true) : Reaches s a b := by
  induction fuel generalizing a with
  | zero => simp [device_is_dependent] at h
  | succ f ih =>
    simp only [device_is_dependent, Bool.or_eq_true, List.any_eq_true, beq_iff_eq] at h
    rcases h with (rfl | ⟨c, hc, hdep⟩) | ⟨c, hc, hcb⟩
    · exact Relation.ReflTransGen.refl
    · exact Relation.ReflTransGen.head (Or.inl hc) (ih hdep)
    · rcases hcb with rfl | hdep
      · exact Relation.ReflTransGen.single (Or.inr hc)
      · exact Relation.ReflTransGen.head (Or.inr hc) (ih hdep)

/-- Completeness of the dependency search: with fuel at least the chain
length, a chain to the target makes the search answer true. -/
theorem dependent_complete {s : CoreState} {a b : Nat} {l : List Nat}
    (h : ChainTo s a l b) : ∀ {fuel : Nat}, l.length + 1 ≤ fuel →
    device_is_dependent s fuel a b = true := by
  induction h with
  | nil a =>
    intro fuel hf
    match fuel, hf with
    | f+1, _ => simp [device_is_dependent]
  | @cons a x c l' he _ ih =>
    intro fuel hf
    match fuel, hf with
    | f+1, hf =>
      have hx : device_is_dependent s f x c = true := ih (by
        simp only [List.length_cons] at hf; omega)
      simp only [device_is_dependent, Bool.or_eq_true, List.any_eq_true, beq_iff_eq]
      rcases he with hch | hco
      · exact Or.inl (Or.inr ⟨x, hch, hx⟩)
      · exact Or.inr ⟨x, hco, Or.inr hx⟩

/-- In an acyclic, edge-closed state, a false answer of the search at the
standard fuel means the target is neither the start nor reachable. -/
theorem dependent_false {s : CoreState} (hacy : Acyclic s) (hcl : EdgeClosed s)
    {a b : Nat} (ha : a ∈ s.devs)
    (h : device_is_dependent s (devFuel s) a b = false) :
    ¬ Reaches s a b := by
  intro hr
  obtain ⟨l, hl⟩ := reaches_iff_chain.mp hr
  have hb := chain_length_bound hacy hcl ha hl
  have h2 : device_is_dependent s (devFuel s) a b = true :=
    dependent_complete hl (by simp only [devFuel]; omega)
  simp [h2] at h

/-- Soundness of the reorder visit sequence: every visited device is
reachable from the start. -/
theorem visit_sound {s : CoreState} {fuel d v : Nat}
    (h : v ∈ visitSeq s fuel d) : Reaches s d v := by
  induction fuel generalizing d with
  | zero => simp [visitSeq] at h
  | succ f ih =>
    simp only [visitSeq, List.mem_cons, List.mem_flatMap] at h
    rcases h with rfl | ⟨r, hr, hv⟩
    · exact Relation.ReflTransGen.refl
    · exact Relation.ReflTransGen.head (depEdge_iff_roots.mpr hr) (ih hv)

/-- Completeness of the reorder visit sequence: with fuel at least the
chain length, the end of a chain from the start is visited. -/
theorem visit_complete {s : CoreState} {d x : Nat} {l : List Nat}
    (h : ChainTo s d l x) : ∀ {fuel : Nat}, l.length + 1 ≤ fuel →
    x ∈ visitSeq s fuel d := by
  induction h with
  | nil a =>
    intro fuel hf
    match fuel, hf with
    | f+1, _ => simp [visitSeq]
  | @cons a r c l' he _ ih =>
    intro fuel hf
    match fuel, hf with
    | f+1, hf =>
      have hx : c ∈ visitSeq s f r := ih (by simp only [List.length_cons] at hf; omega)
      simp only [visitSeq, List.mem_cons, List.mem_flatMap]
      exact Or.inr ⟨r, depEdge_iff_roots.mp he, hx⟩

/-- The start of a visit sequence is its first element. -/
theorem visit_head {s : CoreState} {d : Nat} {fuel : Nat} (hf : 1 ≤ fuel) :
    d ∈ visitSeq s fuel d :=
  visit_complete (ChainTo.nil d) (by simpa)

/-- Splitting an equation between an append and a list with a
distinguished element. -/
theorem append_split_cons {α : Type} {l₁ l₂ u v : List α} {a : α}
    (h : l₁ ++ l₂ = u ++ a :: v) :
    (∃ w, l₁ = u ++ a :: w ∧ v = w ++ l₂) ∨
    (∃ u₁, u = l₁ ++ u₁ ∧ l₂ = u₁ ++ a :: v) := by
  rcases List.append_eq_append_iff.mp h with ⟨a', h1, h2⟩ | ⟨c', h1, h2⟩
  · exact Or.inr ⟨a', h1, h2⟩
  · cases c' with
    | nil =>
      refine Or.inr ⟨[], by simp [h1], by simpa using h2.symm⟩
    | cons hd tl =>
      simp only [List.cons_append, List.cons.injEq] at h2
      obtain ⟨rfl, hv⟩ := h2
      exact Or.inl ⟨tl, h1, hv⟩

/-- Auxiliary for visit_after: if after every occurrence of a inside each
per-root visit sequence b still occurs, the same holds for their
concatenation. -/
theorem visit_after_aux {s : CoreState} {f : Nat} {a b : Nat} :
    ∀ (rs : List Nat),
    (∀ r ∈ rs, ∀ t₁ t₂, visitSeq s f r = t₁ ++ a :: t₂ → b ∈ t₂) →
    ∀ u v, rs.flatMap (visitSeq s f) = u ++ a :: v → b ∈ v := by
  intro rs
  induction rs with
  | nil =>
    intro _ u v h
    simp only [List.flatMap_nil] at h
    exact absurd h (by simp)
  | cons r rest ih =>
    intro hall u v h
    simp only [List.flatMap_cons] at h
    rcases append_split_cons h with ⟨w, hw, hv⟩ | ⟨u₁, _, h2⟩
    · subst hv
      exact List.mem_append.mpr (Or.inl (hall r (by simp) u w hw))
    · exact ih (fun r' hr' => hall r' (by simp [hr'])) u₁ v h2

/-- Every occurrence of a in the visit sequence is followed by an
occurrence of b, for any dependency edge from a to b, provided the fuel
strictly dominates every chain length from the start.  In particular the
last move of a is followed by a move of b. -/
theorem visit_after {s : CoreState} {a b : Nat} (hedge : DepEdge s a b) :
    ∀ {fuel d : Nat}, (∀ x l, ChainTo s d l x → l.length + 2 ≤ fuel) →
    ∀ t₁ t₂, visitSeq s fuel d = t₁ ++ a :: t₂ → b ∈ t₂ := by
  intro fuel
  induction fuel with
  | zero =>
    intro d hch t₁ t₂ h
    simp only [visitSeq] at h
    exact absurd h (by simp)
  | succ f ih =>
    intro d hch t₁ t₂ h
    simp only [visitSeq] at h
    cases t₁ with
    | nil =>
      simp only [List.nil_append, List.cons.injEq] at h
      obtain ⟨rfl, rfl⟩ := h
      have hb : b ∈ deviceRoots s d := depEdge_iff_roots.mp hedge
      have hf2 : 3 ≤ f + 1 := hch b [b] (ChainTo.cons hedge (ChainTo.nil b))
      exact List.mem_flatMap.mpr ⟨b, hb, visit_head (by omega)⟩
    | cons h₁ t₁' =>
      simp only [List.cons_append, List.cons.injEq] at h
      obtain ⟨rfl, hflat⟩ := h
      refine visit_after_aux (deviceRoots s d) ?_ t₁' t₂ hflat
      intro r hr u v hsplit
      have hch' : ∀ x l, ChainTo s r l x → l.length + 2 ≤ f := by
        intro x l hc
        have := hch x (r :: l) (ChainTo.cons (depEdge_iff_roots.mpr hr) hc)
        simp only [List.length_cons] at this
        omega
      exact ih hch' u v hsplit

/-- Moving one device to the tail permutes the Ordering List. -/
theorem moveLast_perm (ord : List Nat) (v : Nat) : moveLast ord v ~ ord := by
  by_cases h : v ∈ ord
  · simp only [moveLast, if_pos h]
    exact (List.perm_append_singleton v (ord.erase v)).trans (List.perm_cons_erase h).symm
  · simp [moveLast, h]

/-- Unfolding one move of a move sequence. -/
theorem applyMoves_cons (ord : List Nat) (v : Nat) (vs : List Nat) :
    applyMoves ord (v :: vs) = applyMoves (moveLast ord v) vs := by
  simp [applyMoves]

/-- A move sequence splits into two. -/
theorem applyMoves_append (ord : List Nat) (vs₁ vs₂ : List Nat) :
    applyMoves ord (vs₁ ++ vs₂) = applyMoves (applyMoves ord vs₁) vs₂ := by
  simp [applyMoves, List.foldl_append]

/-- A whole move sequence permutes the Ordering List. -/
theorem applyMoves_perm : ∀ (vs ord : List Nat), applyMoves ord vs ~ ord := by
  intro vs
  induction vs with
  | nil => intro ord; simp [applyMoves]
  | cons v rest ih =>
    intro ord
    rw [applyMoves_cons]
    exact (ih (moveLast ord v)).trans (moveLast_perm ord v)

/-- The first device of a Before pair is in the list. -/
theorem before_mem_left {ord : List Nat} {a b : Nat} (h : Before ord a b) : a ∈ ord :=
  h.subset (by simp)

/-- The second device of a Before pair is in the list. -/
theorem before_mem_right {ord : List Nat} {a b : Nat} (h : Before ord a b) : b ∈ ord :=
  h.subset (by simp)

/-- In a nodup list, Before only relates distinct devices. -/
theorem before_ne {ord : List Nat} {a b : Nat} (hnd : ord.Nodup) (h : Before ord a b) :
    a ≠ b := by
  have h2 : ([a, b] : List Nat).Nodup := hnd.sublist h
  simp only [List.nodup_cons, List.mem_singleton] at h2
  exact h2.1

/-- Moving a third device preserves Before. -/
theorem before_moveLast_other {ord : List Nat} {a b v : Nat} (h : Before ord a b)
    (hva : v ≠ a) (hvb : v ≠ b) : Before (moveLast ord v) a b := by
  by_cases hv : v ∈ ord
  · simp only [moveLast, if_pos hv]
    have h1 : ([a, b] : List Nat).erase v = [a, b] :=
      List.erase_of_not_mem (by simp [hva, hvb])
    have h2 : ([a, b] : List Nat) <+ ord.erase v := h1 ▸ h.erase v
    exact h2.trans (List.sublist_append_left (ord.erase v) [v])
  · simpa [moveLast, hv] using h

/-- Moving b to the tail puts it after any other present device. -/
theorem before_moveLast_target {ord : List Nat} {a b : Nat} (hb : b ∈ ord) (ha : a ∈ ord)
    (hne : a ≠ b) : Before (moveLast ord b) a b := by
  simp only [moveLast, if_pos hb]
  have ha' : a ∈ ord.erase b := (List.mem_erase_of_ne hne).mpr ha
  have h1 : [a] <+ ord.erase b := List.singleton_sublist.mpr ha'
  exact h1.append (List.Sublist.refl [b])

/-- A device that is never moved keeps its Before relations. -/
theorem before_applyMoves_of_not_mem {a b : Nat} :
    ∀ (vs ord : List Nat), ord.Nodup → Before ord a b → a ∉ vs →
    Before (applyMoves ord vs) a b := by
  intro vs
  induction vs with
  | nil => intro ord _ h _; simpa [applyMoves] using h
  | cons v rest ih =>
    intro ord hnd h hav
    simp only [List.mem_cons, not_or] at hav
    rw [applyMoves_cons]
    refine ih (moveLast ord v) ((moveLast_perm ord v).nodup_iff.mpr hnd) ?_ hav.2
    by_cases hvb : v = b
    · subst hvb
      by_cases hv : v ∈ ord
      · exact before_moveLast_target hv (before_mem_left h) (before_ne hnd h)
      · simpa [moveLast, hv] using h
    · exact before_moveLast_other h (fun e => hav.1 e.symm) hvb

/-- Moving b somewhere in the sequence while never moving a places a
before b. -/
theorem before_applyMoves_establish {a b : Nat} :
    ∀ (vs ord : List Nat), ord.Nodup → b ∈ vs → a ∉ vs → a ∈ ord → b ∈ ord → a ≠ b →
    Before (applyMoves ord vs) a b := by
  intro vs
  induction vs with
  | nil => intro ord _ hbv; simp at hbv
  | cons v rest ih =>
    intro ord hnd hbv hav ha hb hne
    simp only [List.mem_cons, not_or] at hav
    rw [applyMoves_cons]
    by_cases hbr : b ∈ rest
    · exact ih (moveLast ord v) ((moveLast_perm ord v).nodup_iff.mpr hnd) hbr hav.2
        ((moveLast_perm ord v).mem_iff.mpr ha) ((moveLast_perm ord v).mem_iff.mpr hb) hne
    · have hvb : v = b := by
        rcases List.mem_cons.mp hbv with h | h
        · exact h.symm
        · exact absurd h hbr
      subst hvb
      have step : Before (moveLast ord v) a v := before_moveLast_target hb ha hne
      exact before_applyMoves_of_not_mem rest (moveLast ord v)
        ((moveLast_perm ord v).nodup_iff.mpr hnd) step hav.2

/-- If b is moved again after every move of a, then a ends up before b. -/
theorem before_applyMoves_after {a b : Nat} :
    ∀ (vs ord : List Nat), ord.Nodup → a ∈ ord → b ∈ ord → a ≠ b → a ∈ vs →
    (∀ t₁ t₂, vs = t₁ ++ a :: t₂ → b ∈ t₂) →
    Before (applyMoves ord vs) a b := by
  intro vs
  induction vs with
  | nil => intro ord _ _ _ _ hav; simp at hav
  | cons v rest ih =>
    intro ord hnd ha hb hne hav hocc
    rw [applyMoves_cons]
    by_cases har : a ∈ rest
    · refine ih (moveLast ord v) ((moveLast_perm ord v).nodup_iff.mpr hnd)
        ((moveLast_perm ord v).mem_iff.mpr ha) ((moveLast_perm ord v).mem_iff.mpr hb)
        hne har ?_
      intro t₁ t₂ ht
      exact hocc (v :: t₁) t₂ (by simp [ht])
    · have hva : v = a := by
        rcases List.mem_cons.mp hav with h | h
        · exact h.symm
        · exact absurd h har
      subst hva
      have hbr : b ∈ rest := hocc [] rest rfl
      exact before_applyMoves_establish rest (moveLast ord v)
        ((moveLast_perm ord v).nodup_iff.mpr hnd) hbr har
        ((moveLast_perm ord v).mem_iff.mpr ha) ((moveLast_perm ord v).mem_iff.mpr hb) hne

/-- device_reorder_to_tail is the application of the visit sequence's
moves, in visit order, to the Ordering List. -/
theorem reorder_eq_applyMoves (s : CoreState) :
    ∀ (fuel d : Nat) (ord : List Nat),
    device_reorder_to_tail s fuel d ord = applyMoves ord (visitSeq s fuel d) := by
  intro fuel
  induction fuel with
  | zero => intro d ord; simp [device_reorder_to_tail, visitSeq, applyMoves]
  | succ f ih =>
    intro d ord
    have aux : ∀ (rs : List Nat) (o : List Nat),
        rs.foldl (fun o c => device_reorder_to_tail s f c o) o =
          applyMoves o (rs.flatMap (visitSeq s f)) := by
      intro rs
      induction rs with
      | nil => intro o; simp [applyMoves]
      | cons r rest ihr =>
        intro o
        simp only [List.foldl_cons, List.flatMap_cons]
        rw [ih, ihr, ← applyMoves_append]
    show (s.consumersOf d).foldl (fun o c => device_reorder_to_tail s f c o)
        ((s.children d).foldl (fun o c => device_reorder_to_tail s f c o) (moveLast ord d)) =
      applyMoves ord (visitSeq s (f+1) d)
    rw [aux, aux]
    simp only [visitSeq, deviceRoots, List.flatMap_append]
    rw [applyMoves_cons, applyMoves_append]

/-- Chains out of an initialized device, measured against the standard
fuel. -/
theorem chain_fuel_bound {s : CoreState} (hacy : Acyclic s) (hcl : EdgeClosed s)
    {c : Nat} (hc : c ∈ s.devs) :
    ∀ x l, ChainTo s c l x → l.length + 2 ≤ devFuel s := by
  intro x l h
  have := chain_length_bound hacy hcl hc h
  simp only [devFuel]
  omega

/-- An edge-closed invariant follows from the structural invariant. -/
theorem coreInv_edgeClosed {s : CoreState} (hinv : CoreInv s) : EdgeClosed s := by
  intro a b h
  rcases h with hch | hco
  · exact hinv.child_devs a b hch
  · obtain ⟨l, hl, _, hcons⟩ := mem_consumersOf.mp hco
    exact hcons ▸ hinv.link_consumer_devs l hl

/-- Reordering the consumer preserves the relative order of the endpoints
of every dependency edge that was already ordered. -/
theorem reorder_edge_before {s : CoreState} (hacy : Acyclic s) (hcl : EdgeClosed s)
    {c : Nat} (hc : c ∈ s.devs) (hnd : s.order.Nodup) {a b : Nat}
    (hedge : DepEdge s a b) (hb : b ∈ s.order) (hprev : Before s.order a b) :
    Before (applyMoves s.order (visitSeq s (devFuel s) c)) a b := by
  by_cases haT : a ∈ visitSeq s (devFuel s) c
  · have hne : a ≠ b := fun he => no_self_edge hacy (show DepEdge s b b from he ▸ hedge)
    refine before_applyMoves_after _ _ hnd (before_mem_left hprev) hb hne haT ?_
    exact fun t₁ t₂ ht => visit_after hedge (chain_fuel_bound hacy hcl hc) t₁ t₂ ht
  · exact before_applyMoves_of_not_mem _ _ hnd hprev haT

/-- Reordering the consumer puts any registered device the consumer does
not depend on, in particular the new link's supplier, before the
consumer. -/
theorem reorder_new_edge_before {s : CoreState} (hacy : Acyclic s) (hcl : EdgeClosed s)
    {c su : Nat} (hc : c ∈ s.devs) (hnd : s.order.Nodup)
    (hsu : su ∈ s.order) (hcord : c ∈ s.order)
    (hdep : device_is_dependent s (devFuel s) c su = false) :
    Before (applyMoves s.order (visitSeq s (devFuel s) c)) su c := by
  have hnr : ¬ Reaches s c su := dependent_false hacy hcl hc hdep
  have hne : su ≠ c := by
    intro he
    subst he
    exact hnr Relation.ReflTransGen.refl
  have hsuT : su ∉ visitSeq s (devFuel s) c := fun h => hnr (visit_sound h)
  have hcT : c ∈ visitSeq s (devFuel s) c := visit_head (by simp [devFuel])
  exact before_applyMoves_establish _ _ hnd hcT hsuT hsu hcord hne

/-- consumersOf only reads the links list. -/
theorem consumersOf_eq_of_links_eq {s s' : CoreState} (h : s'.links = s.links) (d : Nat) :
    s'.consumersOf d = s.consumersOf d := by
  simp [CoreState.consumersOf, h]

/-- consumersOf after appending one link to the global list. -/
theorem consumersOf_append {s s' : CoreState} {l₀ : Link}
    (hl : s'.links = s.links ++ [l₀]) (d : Nat) :
    s'.consumersOf d = s.consumersOf d ++ (if l₀.supplier = d then [l₀.consumer] else []) := by
  simp only [CoreState.consumersOf, hl, List.filter_append, List.map_append]
  congr 1
  by_cases h : l₀.supplier = d <;> simp [h]

/-- The dependency edges after appending one link: the old edges plus the
new link's edge. -/
theorem depEdge_append {s s' : CoreState} {l₀ : Link}
    (hl : s'.links = s.links ++ [l₀]) (hch : s'.children = s.children) {a b : Nat} :
    DepEdge s' a b ↔ DepEdge s a b ∨ (a = l₀.supplier ∧ b = l₀.consumer) := by
  constructor
  · intro hd
    rcases hd with hc | hco
    · exact Or.inl (Or.inl (hch ▸ hc))
    · rw [consumersOf_append hl] at hco
      rcases List.mem_append.mp hco with h1 | h2
      · exact Or.inl (Or.inr h1)
      · by_cases h : l₀.supplier = a
        · rw [if_pos h] at h2
          exact Or.inr ⟨h.symm, List.mem_singleton.mp h2⟩
        · rw [if_neg h] at h2
          cases h2
  · intro hd
    rcases hd with (hc | hco) | ⟨ha, hb⟩
    · exact Or.inl (by rw [hch]; exact hc)
    · refine Or.inr ?_
      rw [consumersOf_append hl]
      exact List.mem_append.mpr (Or.inl hco)
    · refine Or.inr ?_
      rw [consumersOf_append hl]
      refine List.mem_append.mpr (Or.inr ?_)
      rw [if_pos ha.symm]
      simp [hb]

/-- Reachability after appending a link whose consumer did not reach its
supplier: any new path either existed before or factors through the new
edge. -/
theorem reaches_append_cases {s s' : CoreState} {l₀ : Link}
    (hl : s'.links = s.links ++ [l₀]) (hch : s'.children = s.children)
    (hnr : ¬ Reaches s l₀.consumer l₀.supplier) :
    ∀ x y, Reaches s' x y →
    Reaches s x y ∨ (Reaches s x l₀.supplier ∧ Reaches s' l₀.consumer y) := by
  have hmono : ∀ u v, Reaches s u v → Reaches s' u v := fun u v h =>
    Relation.ReflTransGen.mono (fun a b he => (depEdge_append hl hch).mpr (Or.inl he)) h
  intro x y h
  induction h using Relation.ReflTransGen.head_induction_on with
  | refl => exact Or.inl Relation.ReflTransGen.refl
  | head hxz hzy ih =>
    rename_i x' z'
    rcases (depEdge_append hl hch).mp hxz with hold | ⟨rfl, rfl⟩
    · rcases ih with h1 | ⟨h1, h2⟩
      · exact Or.inl (Relation.ReflTransGen.head hold h1)
      · exact Or.inr ⟨Relation.ReflTransGen.head hold h1, h2⟩
    · rcases ih with h1 | ⟨h1, h2⟩
      · exact Or.inr ⟨Relation.ReflTransGen.refl, hmono _ _ h1⟩
      · exact absurd h1 hnr

/-- After such an append the consumer still does not reach the supplier. -/
theorem not_reaches_append {s s' : CoreState} {l₀ : Link}
    (hl : s'.links = s.links ++ [l₀]) (hch : s'.children = s.children)
    (hnr : ¬ Reaches s l₀.consumer l₀.supplier) :
    ¬ Reaches s' l₀.consumer l₀.supplier := by
  intro h
  rcases reaches_append_cases hl hch hnr _ _ h with h1 | ⟨h1, -⟩
  · exact hnr h1
  · exact hnr h1

/-- Appending a link whose consumer does not reach its supplier keeps the
dependency relation acyclic. -/
theorem acyclic_append {s s' : CoreState} {l₀ : Link}
    (hl : s'.links = s.links ++ [l₀]) (hch : s'.children = s.children)
    (hacy : Acyclic s) (hnr : ¬ Reaches s l₀.consumer l₀.supplier) :
    Acyclic s' := by
  have hmono : ∀ u v, Reaches s u v → Reaches s' u v := fun u v h =>
    Relation.ReflTransGen.mono (fun a b he => (depEdge_append hl hch).mpr (Or.inl he)) h
  intro x hx
  obtain ⟨z, hxz, hzx⟩ := Relation.TransGen.head'_iff.mp hx
  rcases (depEdge_append hl hch).mp hxz with hold | ⟨hxe, hze⟩
  · rcases reaches_append_cases hl hch hnr _ _ hzx with h1 | ⟨h1, h2⟩
    · exact hacy x (Relation.TransGen.head' hold h1)
    · apply not_reaches_append hl hch hnr
      have hxz' : Reaches s' x z :=
        Relation.ReflTransGen.single ((depEdge_append hl hch).mpr (Or.inl hold))
      exact h2.trans (hxz'.trans (hmono _ _ h1))
  · subst hxe
    subst hze
    exact not_reaches_append hl hch hnr hzx

/-- The dependency edges after inserting dev into p's children: the old
edges plus the containment edge from p to dev. -/
theorem depEdge_child {s s' : CoreState} {p dev : Nat}
    (hl : s'.links = s.links)
    (hch : ∀ q, s'.children q = if q = p then s.children q ++ [dev] else s.children q)
    {a b : Nat} :
    DepEdge s' a b ↔ DepEdge s a b ∨ (a = p ∧ b = dev) := by
  constructor
  · intro hd
    rcases hd with hc | hco
    · rw [hch a] at hc
      by_cases h : a = p
      · rw [if_pos h] at hc
        rcases List.mem_append.mp hc with h1 | h2
        · exact Or.inl (Or.inl h1)
        · exact Or.inr ⟨h, List.mem_singleton.mp h2⟩
      · rw [if_neg h] at hc
        exact Or.inl (Or.inl hc)
    · rw [consumersOf_eq_of_links_eq hl] at hco
      exact Or.inl (Or.inr hco)
  · intro hd
    rcases hd with (hc | hco) | ⟨ha, hb⟩
    · refine Or.inl ?_
      rw [hch a]
      by_cases h : a = p
      · rw [if_pos h]
        exact List.mem_append.mpr (Or.inl hc)
      · rw [if_neg h]
        exact hc
    · refine Or.inr ?_
      rw [consumersOf_eq_of_links_eq hl]
      exact hco
    · refine Or.inl ?_
      rw [hch a, if_pos ha]
      exact List.mem_append.mpr (Or.inr (by simp [hb]))

/-- When the new child has no outgoing edges, any new path avoiding it as
an endpoint existed before. -/
theorem reaches_child_to_old {s s' : CoreState} {p dev : Nat}
    (hdiff : ∀ a b, DepEdge s' a b ↔ DepEdge s a b ∨ (a = p ∧ b = dev))
    (hnout : ∀ z, ¬ DepEdge s' dev z) :
    ∀ a b, Reaches s' a b → b ≠ dev → Reaches s a b := by
  intro a b h
  induction h using Relation.ReflTransGen.head_induction_on with
  | refl => intro _; exact Relation.ReflTransGen.refl
  | head hxz hzy ih =>
    rename_i x' z'
    intro hbne
    by_cases hz : z' = dev
    · subst hz
      rcases Relation.ReflTransGen.cases_head hzy with he | ⟨w, hw, -⟩
      · exact absurd he.symm hbne
      · exact absurd hw (hnout w)
    · rcases (hdiff _ _).mp hxz with hold | ⟨-, hzd⟩
      · exact Relation.ReflTransGen.head hold (ih hbne)
      · exact absurd hzd hz

/-- Adding a containment edge to a child with no outgoing edges keeps the
dependency relation acyclic. -/
theorem acyclic_child {s s' : CoreState} {p dev : Nat}
    (hdiff : ∀ a b, DepEdge s' a b ↔ DepEdge s a b ∨ (a = p ∧ b = dev))
    (hnout : ∀ z, ¬ DepEdge s' dev z)
    (hacy : Acyclic s) : Acyclic s' := by
  intro x hx
  obtain ⟨z, hxz, hzx⟩ := Relation.TransGen.head'_iff.mp hx
  by_cases hxd : x = dev
  · subst hxd
    exact hnout z hxz
  · have hzx' : Reaches s z x := reaches_child_to_old hdiff hnout _ _ hzx hxd
    rcases (hdiff _ _).mp hxz with hold | ⟨hxp, hzd⟩
    · exact hacy x (Relation.TransGen.head' hold hzx')
    · subst hzd
      rcases Relation.ReflTransGen.cases_head hzx' with he | ⟨w, hw, -⟩
      · exact hxd he.symm
      · exact hnout w ((hdiff _ _).mpr (Or.inl hw))

/-- put_device undoes get_device on the reference-count map. -/
theorem putRefOpt_getRefOpt (parent : Option Nat) (r : Nat → Nat) :
    putRefOpt parent (getRefOpt parent r) = r := by
  cases parent with
  | none => rfl
  | some p =>
    funext d
    simp only [putRefOpt, getRefOpt, putRef, getRef]
    by_cases h : d = p <;> simp [h]

/-- Erasing a freshly appended device restores the list. -/
theorem erase_append_self {l : List Nat} {dev : Nat} (h : dev ∉ l) :
    (l ++ [dev]).erase dev = l := by
  rw [List.erase_append_right _ h]
  simp

/-- The state produced by a successful registration of dev under parent. -/
def regState (s : CoreState) (dev : Nat) (parent : Option Nat) : CoreState :=
  { s with
      order := s.order ++ [dev],
      refcnt := (match parent with
                 | Option.none => getRefOpt parent s.refcnt
                 | some _ => getRef dev (getRefOpt parent s.refcnt)),
      children := (match parent with
                   | Option.none => s.children
                   | some p => fun q => if q = p then s.children q ++ [dev] else s.children q),
      parent := fun q => if q = dev then parent else s.parent q }

/-- The unwound state of the early error paths of device_add equals the
input state. -/
theorem refcnt_state_eq (s : CoreState) (parent : Option Nat) :
    ({ s with refcnt := putRefOpt parent (getRefOpt parent s.refcnt) } : CoreState) = s := by
  rw [putRefOpt_getRefOpt]

/-- The unwound state of the later error paths of device_add equals the
input state. -/
theorem unwound_state_eq {s : CoreState} {dev : Nat} (parent : Option Nat)
    (hmem : dev ∉ s.order) :
    ({ s with order := (s.order ++ [dev]).erase dev,
              refcnt := putRefOpt parent (getRefOpt parent s.refcnt) } : CoreState) = s := by
  rw [putRefOpt_getRefOpt, erase_append_self hmem]

/-- Full characterization of device_add: on success it produces regState
and dev was unregistered; on failure the state is exactly the input
state (complete unwinding). -/
theorem device_add_main (s : CoreState) (dev : Nat) (parent : Option Nat) (env : AddEnv) :
    ((device_add s dev parent env).2 = Option.none →
      dev ∉ s.order ∧ (device_add s dev parent env).1 = regState s dev parent) ∧
    ((device_add s dev parent env).2 ≠ Option.none → (device_add s dev parent env).1 = s) := by
  unfold device_add
  by_cases h1 : (!env.name_ok) = true
  · rw [if_pos h1]
    exact ⟨fun h => absurd h (by simp), fun _ => rfl⟩
  · rw [if_neg h1]
    by_cases h2 : (!env.parent_kobj_ok) = true
    · rw [if_pos h2]
      exact ⟨fun h => absurd h (by simp), fun _ => refcnt_state_eq s parent⟩
    · rw [if_neg h2]
      by_cases h3 : dev ∈ s.order ∨ env.kobject_add_ok = false
      · rw [if_pos h3]
        exact ⟨fun h => absurd h (by simp), fun _ => refcnt_state_eq s parent⟩
      · rw [if_neg h3]
        have hmem : dev ∉ s.order := fun hm => h3 (Or.inl hm)
        by_cases h4 : (!env.uevent_file_ok) = true
        · rw [if_pos h4]
          exact ⟨fun h => absurd h (by simp), fun _ => unwound_state_eq parent hmem⟩
        · rw [if_neg h4]
          by_cases h5 : (!env.symlink_ok) = true
          · rw [if_pos h5]
            exact ⟨fun h => absurd h (by simp), fun _ => unwound_state_eq parent hmem⟩
          · rw [if_neg h5]
            by_cases h6 : (!env.attrs_ok) = true
            · rw [if_pos h6]
              exact ⟨fun h => absurd h (by simp), fun _ => unwound_state_eq parent hmem⟩
            · rw [if_neg h6]
              by_cases h7 : (!env.bus_add_ok) = true
              · rw [if_pos h7]
                exact ⟨fun h => absurd h (by simp), fun _ => unwound_state_eq parent hmem⟩
              · rw [if_neg h7]
                by_cases h8 : (!env.dpm_sysfs_ok) = true
                · rw [if_pos h8]
                  exact ⟨fun h => absurd h (by simp), fun _ => unwound_state_eq parent hmem⟩
                · rw [if_neg h8]
                  by_cases h9 : (env.has_devt && !env.devt_file_ok) = true
                  · rw [if_pos h9]
                    exact ⟨fun h => absurd h (by simp), fun _ => unwound_state_eq parent hmem⟩
                  · rw [if_neg h9]
                    by_cases h10 : (env.has_devt && !env.sys_entry_ok) = true
                    · rw [if_pos h10]
                      exact ⟨fun h => absurd h (by simp), fun _ => unwound_state_eq parent hmem⟩
                    · rw [if_neg h10]
                      exact ⟨fun _ => ⟨hmem, rfl⟩, fun hne => absurd rfl hne⟩

/-- A successful device_add appends dev to the Ordering List and to the
parent's children, records the parent and takes the references; and it
can only succeed when dev was not registered. -/
theorem device_add_success {s : CoreState} {dev : Nat} {parent : Option Nat} {env : AddEnv}
    (h : (device_add s dev parent env).2 = Option.none) :
    dev ∉ s.order ∧ (device_add s dev parent env).1 = regState s dev parent :=
  (device_add_main s dev parent env).1 h

/-- Any failing device_add leaves the state exactly as it was: the
registration is fully unwound. -/
theorem device_add_error {s : CoreState} {dev : Nat} {parent : Option Nat} {env : AddEnv}
    {e : AddErr} (h : (device_add s dev parent env).2 = some e) :
    (device_add s dev parent env).1 = s :=
  (device_add_main s dev parent env).2 (fun hn => by rw [hn] at h; exact Option.noConfusion h)


/-- The link object device_link_add allocates. -/
def mkLink (s : CoreState) (consumer supplier : Nat) (flags : LinkFlags) : Link :=
  { id := s.nextId, consumer := consumer, supplier := supplier, flags := flags,
    status := device_link_init_status flags (s.links_status supplier)
      (s.links_status consumer) }

/-- The state after device_link_add creates a new link. -/
def linkAddedState (s : CoreState) (consumer supplier : Nat) (flags : LinkFlags) : CoreState :=
  { s with order := device_reorder_to_tail s (devFuel s) consumer s.order,
           links := s.links ++ [mkLink s consumer supplier flags],
           refcnt := getRef consumer (getRef supplier s.refcnt),
           nextId := s.nextId + 1 }

/-- device_link_add fails immediately on STATELESS together with
AUTOREMOVE. -/
theorem device_link_add_invalid {s : CoreState} {c su : Nat} {flags : LinkFlags}
    (hf : (flags.stateless && flags.autoremove) = true) :
    device_link_add s c su flags = (s, Except.error LinkErr.invalidFlags) := by
  unfold device_link_add
  rw [if_pos hf]

/-- device_link_add fails when the supplier is not registered. -/
theorem device_link_add_notReady {s : CoreState} {c su : Nat} {flags : LinkFlags}
    (hf : (flags.stateless && flags.autoremove) = false)
    (hsu : su ∉ s.order) :
    device_link_add s c su flags = (s, Except.error LinkErr.supplierNotReady) := by
  unfold device_link_add
  rw [if_neg (by simp [hf]), if_pos hsu]

/-- device_link_add fails with a dependency cycle when the reverse
dependency check fires, leaving the state untouched. -/
theorem device_link_add_cycle {s : CoreState} {c su : Nat} {flags : LinkFlags}
    (hf : (flags.stateless && flags.autoremove) = false)
    (hsu : su ∈ s.order)
    (hdep : device_is_dependent s (devFuel s) c su = true) :
    device_link_add s c su flags = (s, Except.error LinkErr.dependencyCycle) := by
  unfold device_link_add
  rw [if_neg (by simp [hf]), if_neg (not_not_intro hsu), if_pos hdep]

/-- device_link_add returns the existing link, untouched state, when one
between the pair already exists. -/
theorem device_link_add_existing {s : CoreState} {c su : Nat} {flags : LinkFlags} {l : Link}
    (hf : (flags.stateless && flags.autoremove) = false)
    (hsu : su ∈ s.order)
    (hdep : device_is_dependent s (devFuel s) c su = false)
    (hfind : s.links.find? (fun l => l.supplier == su && l.consumer == c) = some l) :
    device_link_add s c su flags = (s, Except.ok l) := by
  unfold device_link_add
  rw [if_neg (by simp [hf]), if_neg (not_not_intro hsu), if_neg (by simp [hdep]), hfind]

/-- device_link_add allocates and inserts a fresh link when none exists
between the pair. -/
theorem device_link_add_created {s : CoreState} {c su : Nat} {flags : LinkFlags}
    (hf : (flags.stateless && flags.autoremove) = false)
    (hsu : su ∈ s.order)
    (hdep : device_is_dependent s (devFuel s) c su = false)
    (hfind : s.links.find? (fun l => l.supplier == su && l.consumer == c) = Option.none) :
    device_link_add s c su flags = (linkAddedState s c su flags, Except.ok (mkLink s c su flags)) := by
  unfold device_link_add
  rw [if_neg (by simp [hf]), if_neg (not_not_intro hsu), if_neg (by simp [hdep]), hfind]
  rfl

/-- Appending to the list keeps earlier Before relations. -/
theorem before_append {ord : List Nat} {a b : Nat} (h : Before ord a b) (l : List Nat) :
    Before (ord ++ l) a b :=
  h.trans (List.sublist_append_left ord l)

/-- Appending b puts every present device before it. -/
theorem before_append_last {ord : List Nat} {a b : Nat} (ha : a ∈ ord) :
    Before (ord ++ [b]) a b :=
  (List.singleton_sublist.mpr ha).append (List.Sublist.refl [b])

/-- The empty state satisfies the structural invariant. -/
theorem coreInv_initState : CoreInv initState := by
  have hne : ∀ a b, ¬ DepEdge initState a b := by
    intro a b h
    rcases h with hc | hco
    · simp [initState] at hc
    · obtain ⟨l, hl, -, -⟩ := mem_consumersOf.mp hco
      simp [initState] at hl
  refine ⟨by simp [initState], by simp [initState], by simp [initState], by simp [initState],
    by simp [initState], by simp [initState], by simp [initState], by simp [initState],
    by simp [initState], ?_, by simp [initState], by simp [initState]⟩
  intro a h
  obtain ⟨z, he, -⟩ := Relation.TransGen.head'_iff.mp h
  exact hne a z he

/-- device_initialize preserves the structural invariant. -/
theorem coreInv_addDevice {s : CoreState} (hinv : CoreInv s) (d : Nat) :
    CoreInv (addDevice s d) := by
  obtain ⟨h1, h2, h3, h4, h5, h6, h7, h8, h9, h10, h11, h12⟩ := hinv
  exact ⟨h1, fun x hx => List.mem_cons.mpr (Or.inr (h2 x hx)),
    fun l hl => List.mem_cons.mpr (Or.inr (h3 l hl)),
    fun p c hc => List.mem_cons.mpr (Or.inr (h4 p c hc)),
    h5, h6, h7, h8, h9, h10, h11, h12⟩

/-- Appending a fresh element preserves nodup. -/
theorem nodup_append_singleton {l : List Nat} {a : Nat} (h : l.Nodup) (ha : a ∉ l) :
    (l ++ [a]).Nodup := by
  simp [List.nodup_append, h, ha]

/-- A successful registration preserves the structural invariant. -/
theorem coreInv_regState {s : CoreState} (hinv : CoreInv s) {dev : Nat} {parent : Option Nat}
    (hd : dev ∈ s.devs) (hdo : dev ∉ s.order)
    (hp : ∀ p, parent = some p → p ∈ s.order) :
    CoreInv (regState s dev parent) := by
  cases parent with
  | none =>
    refine ⟨nodup_append_singleton hinv.nodup_order hdo, ?_, hinv.link_consumer_devs,
      hinv.child_devs, ?_, ?_, ?_, hinv.id_bound, hinv.links_dedup, hinv.acyclic, ?_, ?_⟩
    · intro x hx
      rcases List.mem_append.mp hx with hx | hx
      · exact hinv.order_devs x hx
      · exact (List.mem_singleton.mp hx) ▸ hd
    · exact fun p c hc => List.mem_append.mpr (Or.inl (hinv.child_parent_reg p c hc))
    · exact fun p c hc => List.mem_append.mpr (Or.inl (hinv.child_reg p c hc))
    · exact fun l hl => List.mem_append.mpr (Or.inl (hinv.supplier_reg l hl))
    · intro l hl hc
      rcases List.mem_append.mp hc with hc | hc
      · exact before_append (hinv.link_order l hl hc) [dev]
      · exact (List.mem_singleton.mp hc) ▸ before_append_last (hinv.supplier_reg l hl)
    · exact fun p c hc => before_append (hinv.child_order p c hc) [dev]
  | some p =>
    have hpo : p ∈ s.order := hp p rfl
    have hpd : dev ≠ p := fun he => hdo (he ▸ hpo)
    have hch : (regState s dev (some p)).children =
        fun q => if q = p then s.children q ++ [dev] else s.children q := rfl
    have hmemch : ∀ q c, c ∈ (regState s dev (some p)).children q →
        c ∈ s.children q ∨ (q = p ∧ c = dev) := by
      intro q c hc
      rw [hch] at hc
      simp only [] at hc
      by_cases hq : q = p
      · rw [if_pos hq] at hc
        rcases List.mem_append.mp hc with hc | hc
        · exact Or.inl hc
        · exact Or.inr ⟨hq, List.mem_singleton.mp hc⟩
      · rw [if_neg hq] at hc
        exact Or.inl hc
    have hnout : ∀ z, ¬ DepEdge (regState s dev (some p)) dev z := by
      intro z hz
      rcases hz with hc | hco
      · rcases hmemch dev z hc with hc | ⟨hq, -⟩
        · exact hdo (hinv.child_parent_reg dev z hc)
        · exact hpd hq
      · obtain ⟨l, hl, hsup, -⟩ := mem_consumersOf.mp hco
        exact hdo (hsup ▸ hinv.supplier_reg l hl)
    refine ⟨nodup_append_singleton hinv.nodup_order hdo, ?_, hinv.link_consumer_devs,
      ?_, ?_, ?_, ?_, hinv.id_bound, hinv.links_dedup, ?_, ?_, ?_⟩
    · intro x hx
      rcases List.mem_append.mp hx with hx | hx
      · exact hinv.order_devs x hx
      · exact (List.mem_singleton.mp hx) ▸ hd
    · intro q c hc
      rcases hmemch q c hc with hc | ⟨-, hcd⟩
      · exact hinv.child_devs q c hc
      · exact hcd ▸ hd
    · intro q c hc
      rcases hmemch q c hc with hc | ⟨hq, -⟩
      · exact List.mem_append.mpr (Or.inl (hinv.child_parent_reg q c hc))
      · exact List.mem_append.mpr (Or.inl (hq ▸ hpo))
    · intro q c hc
      rcases hmemch q c hc with hc | ⟨-, hcd⟩
      · exact List.mem_append.mpr (Or.inl (hinv.child_reg q c hc))
      · exact List.mem_append.mpr (Or.inr (by simp [hcd]))
    · exact fun l hl => List.mem_append.mpr (Or.inl (hinv.supplier_reg l hl))
    · exact @acyclic_child s (regState s dev (some p)) p dev
        (fun a b => @depEdge_child s (regState s dev (some p)) p dev rfl (fun q => rfl) a b)
        hnout hinv.acyclic
    · intro l hl hc
      rcases List.mem_append.mp hc with hc | hc
      · exact before_append (hinv.link_order l hl hc) [dev]
      · exact (List.mem_singleton.mp hc) ▸ before_append_last (hinv.supplier_reg l hl)
    · intro q c hc
      rcases hmemch q c hc with hc | ⟨hq, hcd⟩
      · exact before_append (hinv.child_order q c hc) [dev]
      · subst hq
        subst hcd
        exact before_append_last hpo

/-- Creating a new link preserves the structural invariant: the state
keeps a registered supplier set, the dedup property, acyclicity (by the
dependency check) and the ordering invariant (by the reorder to tail). -/
theorem coreInv_linkAdded {s : CoreState} (hinv : CoreInv s) {c su : Nat} {flags : LinkFlags}
    (hc : c ∈ s.devs) (hsu : su ∈ s.order)
    (hdep : device_is_dependent s (devFuel s) c su = false)
    (hfind : s.links.find? (fun l => l.supplier == su && l.consumer == c) = Option.none) :
    CoreInv (linkAddedState s c su flags) := by
  have hcl : EdgeClosed s := coreInv_edgeClosed hinv
  have hnr : ¬ Reaches s c su := dependent_false hinv.acyclic hcl hc hdep
  have hord : (linkAddedState s c su flags).order =
      applyMoves s.order (visitSeq s (devFuel s) c) := reorder_eq_applyMoves s (devFuel s) c s.order
  have hperm : (linkAddedState s c su flags).order ~ s.order := by
    rw [hord]
    exact applyMoves_perm _ _
  have hlinks : (linkAddedState s c su flags).links = s.links ++ [mkLink s c su flags] := rfl
  have hnew : ∀ l, l ∈ (linkAddedState s c su flags).links →
      l ∈ s.links ∨ l = mkLink s c su flags := by
    intro l hl
    rw [hlinks] at hl
    rcases List.mem_append.mp hl with h | h
    · exact Or.inl h
    · exact Or.inr (List.mem_singleton.mp h)
  refine ⟨hperm.nodup_iff.mpr hinv.nodup_order, ?_, ?_, hinv.child_devs, ?_, ?_, ?_, ?_, ?_,
    ?_, ?_, ?_⟩
  · exact fun x hx => hinv.order_devs x (hperm.mem_iff.mp hx)
  · intro l hl
    rcases hnew l hl with h | h
    · exact hinv.link_consumer_devs l h
    · rw [h]
      exact hc
  · exact fun p c' hc' => hperm.mem_iff.mpr (hinv.child_parent_reg p c' hc')
  · exact fun p c' hc' => hperm.mem_iff.mpr (hinv.child_reg p c' hc')
  · intro l hl
    rcases hnew l hl with h | h
    · exact hperm.mem_iff.mpr (hinv.supplier_reg l h)
    · rw [h]
      exact hperm.mem_iff.mpr hsu
  · intro l hl
    rcases hnew l hl with h | h
    · have := hinv.id_bound l h
      show l.id < s.nextId + 1
      omega
    · rw [h]
      show s.nextId < s.nextId + 1
      omega
  · rw [hlinks]
    refine List.pairwise_append.mpr ⟨hinv.links_dedup, by simp, ?_⟩
    intro l hl l' hl'
    rw [List.mem_singleton.mp hl']
    intro ⟨hcons, hsup⟩
    have hnp := List.find?_eq_none.mp hfind l hl
    simp only [Bool.and_eq_true, beq_iff_eq, not_and] at hnp
    exact absurd hcons (by
      intro hce
      exact hnp (by simpa [mkLink] using hsup) (by simpa [mkLink] using hce) |> fun hx => hx)
  · exact acyclic_append hlinks rfl hinv.acyclic hnr
  · intro l hl hlc
    rw [hord] at hlc ⊢
    rcases hnew l hl with h | h
    · have hco : l.consumer ∈ s.order := (applyMoves_perm _ _).mem_iff.mp hlc
      have hedge : DepEdge s l.supplier l.consumer :=
        Or.inr (mem_consumersOf.mpr ⟨l, h, rfl, rfl⟩)
      exact reorder_edge_before hinv.acyclic hcl hc hinv.nodup_order hedge hco
        (hinv.link_order l h hco)
    · rw [h]
      have hco : c ∈ s.order := by
        have := (applyMoves_perm _ _).mem_iff.mp hlc
        rw [h] at this
        exact this
      exact reorder_new_edge_before hinv.acyclic hcl hc hinv.nodup_order hsu hco hdep
  · intro p c' hc'
    rw [hord]
    exact reorder_edge_before hinv.acyclic hcl hc hinv.nodup_order (Or.inl hc')
      (hinv.child_reg p c' hc') (hinv.child_order p c' hc')

/-- Every successful device_link_add call preserves the structural
invariant. -/
theorem coreInv_link_step {s : CoreState} (hinv : CoreInv s) {c su : Nat} {flags : LinkFlags}
    (hc : c ∈ s.devs)
    (hok : linkOk (device_link_add s c su flags).2 = true) :
    CoreInv (device_link_add s c su flags).1 := by
  by_cases hf : (flags.stateless && flags.autoremove) = true
  · rw [device_link_add_invalid hf] at hok
    simp [linkOk] at hok
  · have hf' : (flags.stateless && flags.autoremove) = false := Bool.eq_false_iff.mpr hf
    by_cases hsu : su ∈ s.order
    · cases hdept : device_is_dependent s (devFuel s) c su with
      | true =>
        rw [device_link_add_cycle hf' hsu hdept] at hok
        simp [linkOk] at hok
      | false =>
        cases hfind : s.links.find? (fun l => l.supplier == su && l.consumer == c) with
        | some l =>
          rw [device_link_add_existing hf' hsu hdept hfind]
          exact hinv
        | none =>
          rw [device_link_add_created hf' hsu hdept hfind]
          exact coreInv_linkAdded hinv hc hsu hdept hfind
    · rw [device_link_add_notReady hf' hsu] at hok
      simp [linkOk] at hok

/-- Every reachable state satisfies the structural invariant; in
particular the dependency graph stays acyclic and the Ordering List stays
consistent with links and containment. -/
theorem reachable_inv {s : CoreState} (h : Reachable s) : CoreInv s := by
  induction h with
  | init => exact coreInv_initState
  | newDevice hr hd ih => exact coreInv_addDevice ih _
  | register hr hd hp hsucc ih =>
    obtain ⟨hdo, heq⟩ := device_add_success hsucc
    rw [heq]
    exact coreInv_regState ih hd hdo hp
  | addLink hr hc hsu hok ih => exact coreInv_link_step ih hc hok

/-- Flags with nothing set (a plain managed link). -/
def sampleFlags : LinkFlags :=
  { stateless := false, autoremove := false, pm_runtime := false, rpm_active := false }

/-- Three initialized devices 0, 1, 2. -/
def sample3 : CoreState := addDevice (addDevice (addDevice initState 0) 1) 2

/-- Device 0 registered as a root. -/
def sampleA : CoreState := (device_add sample3 0 Option.none allOkEnv).1

/-- Device 1 registered as a child of 0. -/
def sampleB : CoreState := (device_add sampleA 1 (some 0) allOkEnv).1

/-- Device 2 registered as a root. -/
def sampleC : CoreState := (device_add sampleB 2 Option.none allOkEnv).1

/-- A link making 2 a consumer of supplier 1. -/
def sampleS : CoreState := (device_link_add sampleC 2 1 sampleFlags).1

/-- The registered sample state arises from successful initialize and
register calls. -/
theorem sampleC_reachable : Reachable sampleC := by
  have h0 : Reachable (addDevice initState 0) :=
    Reachable.newDevice Reachable.init (by decide)
  have h1 : Reachable (addDevice (addDevice initState 0) 1) :=
    Reachable.newDevice h0 (by decide)
  have h2 : Reachable sample3 := Reachable.newDevice h1 (by decide)
  have hA : Reachable sampleA :=
    Reachable.register h2 (by decide) (by intro p hp; cases hp) (by decide)
  have hB : Reachable sampleB :=
    Reachable.register hA (by decide) (by intro p hp; cases hp; decide) (by decide)
  exact Reachable.register hB (by decide) (by intro p hp; cases hp) (by decide)

/-- The sample state arises from successful initialize, register and
add_link calls. -/
theorem sample_reachable : Reachable sampleS :=
  Reachable.addLink sampleC_reachable (by decide) (by decide) (by decide)

/-- C1: after any sequence of successful register and add_link operations,
every link's supplier precedes its (registered) consumer in the Ordering
List, and every parent precedes each of its children. -/
theorem C1_ordering_invariant {s : CoreState} (hr : Reachable s) :
    (∀ l ∈ s.links, l.consumer ∈ s.order → Before s.order l.supplier l.consumer) ∧
    (∀ p c, c ∈ s.children p → Before s.order p c) :=
  ⟨(reachable_inv hr).link_order, (reachable_inv hr).child_order⟩

theorem C1_ordering_invariant_witness :
    (∀ l ∈ sampleS.links, l.consumer ∈ sampleS.order →
      Before sampleS.order l.supplier l.consumer) ∧
    (∀ p c, c ∈ sampleS.children p → Before sampleS.order p c) :=
  C1_ordering_invariant sample_reachable

/-- C2: the dependency relation of every reachable state is acyclic, and
an add_link call whose reverse-dependency check fires fails with a
dependency cycle and leaves the whole state, in particular link sets,
child sets and Ordering List, unchanged. -/
theorem C2_acyclicity {s : CoreState} (hr : Reachable s) :
    Acyclic s ∧
    ∀ c su flags, (flags.stateless && flags.autoremove) = false → su ∈ s.order →
      device_is_dependent s (devFuel s) c su = true →
      device_link_add s c su flags = (s, Except.error LinkErr.dependencyCycle) :=
  ⟨(reachable_inv hr).acyclic,
   fun _ _ _ hf hsu hdep => device_link_add_cycle hf hsu hdep⟩

theorem C2_acyclicity_witness :
    Acyclic sampleS ∧
    ∀ c su flags, (flags.stateless && flags.autoremove) = false → su ∈ sampleS.order →
      device_is_dependent sampleS (devFuel sampleS) c su = true →
      device_link_add sampleS c su flags = (sampleS, Except.error LinkErr.dependencyCycle) :=
  C2_acyclicity sample_reachable

/-- C9: a self link is always rejected: with valid flags and the device
registered it is rejected precisely as a dependency cycle, because the
dependency check answers true on equal arguments; and with any flags at
all the call fails with some error. -/
theorem C9_self_link {s : CoreState} {d : Nat} {flags : LinkFlags}
    (hf : (flags.stateless && flags.autoremove) = false) (hreg : d ∈ s.order) :
    (device_link_add s d d flags).2 = Except.error LinkErr.dependencyCycle ∧
    device_is_dependent s (devFuel s) d d = true ∧
    (∀ flags' : LinkFlags, ∃ e, (device_link_add s d d flags').2 = Except.error e) := by
  have hdd : device_is_dependent s (devFuel s) d d = true := by
    show device_is_dependent s (s.devs.length + 1) d d = true
    simp [device_is_dependent]
  refine ⟨by rw [device_link_add_cycle hf hreg hdd], hdd, ?_⟩
  intro flags'
  by_cases hf' : (flags'.stateless && flags'.autoremove) = true
  · exact ⟨LinkErr.invalidFlags, by rw [device_link_add_invalid hf']⟩
  · exact ⟨LinkErr.dependencyCycle,
      by rw [device_link_add_cycle (Bool.eq_false_iff.mpr hf') hreg hdd]⟩

theorem C9_self_link_witness :
    (device_link_add sampleS 1 1 sampleFlags).2 = Except.error LinkErr.dependencyCycle ∧
    device_is_dependent sampleS (devFuel sampleS) 1 1 = true ∧
    (∀ flags' : LinkFlags, ∃ e, (device_link_add sampleS 1 1 flags').2 = Except.error e) :=
  C9_self_link (by decide) (by decide)

/-- C3: a successful link creation computes the initial link state from the
flags and the two devices' driver-binding statuses exactly as the spec
tabulates. -/
theorem C3_initial_link_state {s : CoreState} {c su : Nat} {flags : LinkFlags}
    (hf : (flags.stateless && flags.autoremove) = false)
    (hsu : su ∈ s.order)
    (hdep : device_is_dependent s (devFuel s) c su = false)
    (hfind : s.links.find? (fun l => l.supplier == su && l.consumer == c) = Option.none) :
    (device_link_add s c su flags).2 = Except.ok
      { id := s.nextId, consumer := c, supplier := su, flags := flags,
        status :=
          if flags.stateless then DeviceLinkState.DL_STATE_NONE
          else
            match s.links_status su with
            | DlDevState.DL_DEV_DRIVER_BOUND =>
              match s.links_status c with
              | DlDevState.DL_DEV_PROBING => DeviceLinkState.DL_STATE_CONSUMER_PROBE
              | DlDevState.DL_DEV_DRIVER_BOUND => DeviceLinkState.DL_STATE_ACTIVE
              | _ => DeviceLinkState.DL_STATE_AVAILABLE
            | DlDevState.DL_DEV_UNBINDING => DeviceLinkState.DL_STATE_SUPPLIER_UNBIND
            | _ => DeviceLinkState.DL_STATE_DORMANT } := by
  rw [device_link_add_created hf hsu hdep hfind]
  show Except.ok (mkLink s c su flags) = _
  unfold mkLink device_link_init_status
  by_cases hst : flags.stateless = true
  · rw [if_pos hst]
  · rw [if_neg hst]

theorem C3_initial_link_state_witness :
    (device_link_add sampleC 2 1 sampleFlags).2 = Except.ok
      { id := sampleC.nextId, consumer := 2, supplier := 1, flags := sampleFlags,
        status :=
          if sampleFlags.stateless then DeviceLinkState.DL_STATE_NONE
          else
            match sampleC.links_status 1 with
            | DlDevState.DL_DEV_DRIVER_BOUND =>
              match sampleC.links_status 2 with
              | DlDevState.DL_DEV_PROBING => DeviceLinkState.DL_STATE_CONSUMER_PROBE
              | DlDevState.DL_DEV_DRIVER_BOUND => DeviceLinkState.DL_STATE_ACTIVE
              | _ => DeviceLinkState.DL_STATE_AVAILABLE
            | DlDevState.DL_DEV_UNBINDING => DeviceLinkState.DL_STATE_SUPPLIER_UNBIND
            | _ => DeviceLinkState.DL_STATE_DORMANT } :=
  C3_initial_link_state (by decide) (by decide) (by decide) (by decide)

/-- C4: device_del performs its graph teardown steps in order: detach from
the parent's child set, purge every remaining link with the device as
either endpoint, remove from the Ordering List, release the parent
reference; and the state effects match. -/
theorem C4_unregister_order (s : CoreState) (dev : Nat) :
    (device_del s dev).2 =
      (match s.parent dev with
       | some _ => [DelStep.detachFromParent]
       | Option.none => []) ++
      (purgedLinks s dev).map (fun l => DelStep.purgeLink l.id) ++
      [DelStep.removeFromOrder, DelStep.releaseParentRef] ∧
    (device_del s dev).1.order = s.order.erase dev ∧
    (device_del s dev).1.links =
      s.links.filter (fun l => l.consumer != dev && l.supplier != dev) := by
  unfold device_del
  cases hp : s.parent dev with
  | none => exact ⟨rfl, rfl, rfl⟩
  | some p => exact ⟨rfl, rfl, rfl⟩

/-- The per-link update device_links_driver_bound applies: first the
consumer-side loop, then the supplier-side loop. -/
def driverBoundUpd (dev : Nat) (l : Link) : Link :=
  let l1 := if l.supplier == dev && !l.flags.stateless then
      { l with status := DeviceLinkState.DL_STATE_AVAILABLE } else l
  if l1.consumer == dev && !l1.flags.stateless then
      { l1 with status := DeviceLinkState.DL_STATE_ACTIVE } else l1

/-- C5: driver_bound marks the device DRIVER_BOUND, turns each of its
non-stateless DORMANT consumer links AVAILABLE and each of its
non-stateless CONSUMER_PROBE supplier links ACTIVE, leaving links not
incident to it alone.  The no-self-link hypothesis holds in every
reachable state. -/
theorem C5_driver_bound (s : CoreState) (dev : Nat)
    (hns : ∀ l ∈ s.links, l.supplier = dev → l.consumer ≠ dev) :
    (device_links_driver_bound s dev).links_status dev = DlDevState.DL_DEV_DRIVER_BOUND ∧
    (device_links_driver_bound s dev).links = s.links.map (driverBoundUpd dev) ∧
    ∀ l ∈ s.links,
      (l.supplier = dev → l.flags.stateless = false →
        l.status = DeviceLinkState.DL_STATE_DORMANT →
        driverBoundUpd dev l = { l with status := DeviceLinkState.DL_STATE_AVAILABLE }) ∧
      (l.consumer = dev → l.flags.stateless = false →
        l.status = DeviceLinkState.DL_STATE_CONSUMER_PROBE →
        driverBoundUpd dev l = { l with status := DeviceLinkState.DL_STATE_ACTIVE }) ∧
      (l.supplier ≠ dev → l.consumer ≠ dev → driverBoundUpd dev l = l) := by
  refine ⟨by simp [device_links_driver_bound], ?_, ?_⟩
  · show (s.links.map _).map _ = _
    rw [List.map_map]
    rfl
  · intro l hl
    refine ⟨?_, ?_, ?_⟩
    · intro hsup hstl hst
      have hcons : l.consumer ≠ dev := hns l hl hsup
      simp [driverBoundUpd, hsup, hstl, hcons]
    · intro hcons hstl hst
      have hsup : l.supplier ≠ dev := fun he => hns l hl he hcons
      simp [driverBoundUpd, hsup, hstl, hcons]
    · intro hsup hcons
      simp [driverBoundUpd, hsup, hcons]

theorem C5_driver_bound_witness :
    (device_links_driver_bound sampleS 1).links_status 1 = DlDevState.DL_DEV_DRIVER_BOUND ∧
    (device_links_driver_bound sampleS 1).links = sampleS.links.map (driverBoundUpd 1) ∧
    ∀ l ∈ sampleS.links,
      (l.supplier = 1 → l.flags.stateless = false →
        l.status = DeviceLinkState.DL_STATE_DORMANT →
        driverBoundUpd 1 l = { l with status := DeviceLinkState.DL_STATE_AVAILABLE }) ∧
      (l.consumer = 1 → l.flags.stateless = false →
        l.status = DeviceLinkState.DL_STATE_CONSUMER_PROBE →
        driverBoundUpd 1 l = { l with status := DeviceLinkState.DL_STATE_ACTIVE }) ∧
      (l.supplier ≠ 1 → l.consumer ≠ 1 → driverBoundUpd 1 l = l) :=
  C5_driver_bound sampleS 1 (by decide)

/-- C7: a failing device_add leaves the state exactly as it was; in
particular the device is in no child set it was not in, holds no new
reference on the parent, and is not in the Ordering List it was not in. -/
theorem C7_register_unwind {s : CoreState} {dev : Nat} {parent : Option Nat} {env : AddEnv}
    {e : AddErr} (h : (device_add s dev parent env).2 = some e) :
    (device_add s dev parent env).1 = s ∧
    (dev ∉ s.order → dev ∉ (device_add s dev parent env).1.order) ∧
    (∀ p, parent = some p → dev ∉ s.children p →
      dev ∉ (device_add s dev parent env).1.children p) ∧
    (∀ p, parent = some p → (device_add s dev parent env).1.refcnt p = s.refcnt p) := by
  have heq := device_add_error h
  rw [heq]
  exact ⟨rfl, fun h' => h', fun p _ h' => h', fun p _ => rfl⟩

/-- An environment whose symlink step fails. -/
def failEnv : AddEnv := { allOkEnv with symlink_ok := false }

theorem C7_register_unwind_witness :
    (device_add sampleS 5 (some 0) failEnv).1 = sampleS ∧
    (5 ∉ sampleS.order → 5 ∉ (device_add sampleS 5 (some 0) failEnv).1.order) ∧
    (∀ p, (some 0 : Option Nat) = some p → 5 ∉ sampleS.children p →
      5 ∉ (device_add sampleS 5 (some 0) failEnv).1.children p) ∧
    (∀ p, (some 0 : Option Nat) = some p →
      (device_add sampleS 5 (some 0) failEnv).1.refcnt p = sampleS.refcnt p) :=
  @C7_register_unwind sampleS 5 (some 0) failEnv AddErr.symlinkError (by decide)

/-- Replacing a link's status by the value it already has is the
identity. -/
theorem link_set_status_eq {l : Link} {v : DeviceLinkState} (h : l.status = v) :
    ({ l with status := v } : Link) = l := by
  cases l
  cases h
  rfl

/-- The per-link update of the successful check_suppliers pass. -/
def checkSuppliersUpd (dev : Nat) (l : Link) : Link :=
  if l.consumer == dev && !l.flags.stateless then
    { l with status := DeviceLinkState.DL_STATE_CONSUMER_PROBE } else l

/-- The loop of check_suppliers succeeds exactly when every non-stateless
link to a supplier is AVAILABLE. -/
theorem checkLoop_true_iff (dev : Nat) : ∀ ls : List Link,
    (checkSuppliersLoop dev ls).2 = true ↔
    ∀ l ∈ ls, l.consumer = dev → l.flags.stateless = false →
      l.status = DeviceLinkState.DL_STATE_AVAILABLE := by
  intro ls
  induction ls with
  | nil => simp [checkSuppliersLoop]
  | cons l rest ih =>
    simp only [checkSuppliersLoop]
    by_cases hc : (l.consumer == dev && !l.flags.stateless) = true
    · rw [if_pos hc]
      simp only [Bool.and_eq_true, beq_iff_eq, Bool.not_eq_true'] at hc
      by_cases hs : l.status = DeviceLinkState.DL_STATE_AVAILABLE
      · rw [if_neg (by simp [hs])]
        show (checkSuppliersLoop dev rest).2 = true ↔ _
        rw [ih]
        constructor
        · intro h l' hl' hcons hstl
          rcases List.mem_cons.mp hl' with heq | hl'
          · rw [heq]
            exact hs
          · exact h l' hl' hcons hstl
        · intro h l' hl' hcons hstl
          exact h l' (List.mem_cons.mpr (Or.inr hl')) hcons hstl
      · rw [if_pos (by simp [hs])]
        show false = true ↔ _
        simp only [Bool.false_eq_true, false_iff, not_forall]
        exact ⟨l, by simp, hc.1, hc.2, hs⟩
    · rw [if_neg hc]
      show (checkSuppliersLoop dev rest).2 = true ↔ _
      rw [ih]
      constructor
      · intro h l' hl' hcons hstl
        rcases List.mem_cons.mp hl' with heq | hl'
        · exact absurd (by simp [heq ▸ hcons, heq ▸ hstl]) hc
        · exact h l' hl' hcons hstl
      · intro h l' hl' hcons hstl
        exact h l' (List.mem_cons.mpr (Or.inr hl')) hcons hstl

/-- On success, the loop marks exactly the non-stateless links to
suppliers CONSUMER_PROBE. -/
theorem checkLoop_true_links (dev : Nat) : ∀ ls : List Link,
    (checkSuppliersLoop dev ls).2 = true →
    (checkSuppliersLoop dev ls).1 = ls.map (checkSuppliersUpd dev) := by
  intro ls
  induction ls with
  | nil => intro _; simp [checkSuppliersLoop]
  | cons l rest ih =>
    intro h
    simp only [checkSuppliersLoop] at h ⊢
    by_cases hc : (l.consumer == dev && !l.flags.stateless) = true
    · rw [if_pos hc] at h ⊢
      by_cases hs : l.status = DeviceLinkState.DL_STATE_AVAILABLE
      · rw [if_neg (by simp [hs])] at h ⊢
        have h2 : (checkSuppliersLoop dev rest).2 = true := h
        rw [List.map_cons]
        have hupd : checkSuppliersUpd dev l =
            { l with status := DeviceLinkState.DL_STATE_CONSUMER_PROBE } := by
          simp [checkSuppliersUpd, hc]
        rw [hupd, ih h2]
      · rw [if_pos (by simp [hs])] at h
        exact absurd h (by simp)
    · rw [if_neg hc] at h ⊢
      have h2 : (checkSuppliersLoop dev rest).2 = true := h
      rw [List.map_cons]
      have hupd : checkSuppliersUpd dev l = l := by
        simp only [checkSuppliersUpd]
        rw [if_neg hc]
      rw [hupd, ih h2]

/-- Unfolding device_links_missing_supplier on a cons cell. -/
theorem missing_supplier_cons (dev : Nat) (l : Link) (ls : List Link) :
    device_links_missing_supplier dev (l :: ls) =
      (if l.consumer == dev && l.status == DeviceLinkState.DL_STATE_CONSUMER_PROBE then
        { l with status := DeviceLinkState.DL_STATE_AVAILABLE } else l) ::
      device_links_missing_supplier dev ls := rfl

/-- On failure, resetting CONSUMER_PROBE links after the partial loop pass
gives the same links as resetting them on the original list: the
partially made CONSUMER_PROBE marks are undone. -/
theorem checkLoop_false_missing (dev : Nat) : ∀ ls : List Link,
    (checkSuppliersLoop dev ls).2 = false →
    device_links_missing_supplier dev (checkSuppliersLoop dev ls).1 =
      device_links_missing_supplier dev ls := by
  intro ls
  induction ls with
  | nil => intro h; simp [checkSuppliersLoop] at h
  | cons l rest ih =>
    intro h
    simp only [checkSuppliersLoop] at h ⊢
    by_cases hc : (l.consumer == dev && !l.flags.stateless) = true
    · rw [if_pos hc] at h ⊢
      by_cases hs : l.status = DeviceLinkState.DL_STATE_AVAILABLE
      · rw [if_neg (by simp [hs])] at h ⊢
        have h2 : (checkSuppliersLoop dev rest).2 = false := h
        have hcons : l.consumer = dev := by
          simp only [Bool.and_eq_true, beq_iff_eq] at hc
          exact hc.1
        show device_links_missing_supplier dev
            ({ l with status := DeviceLinkState.DL_STATE_CONSUMER_PROBE } ::
              (checkSuppliersLoop dev rest).1) = _
        rw [missing_supplier_cons, missing_supplier_cons, ih h2]
        congr 1
        rw [if_pos (by simp [hcons]), if_neg (by simp [hs])]
        exact link_set_status_eq hs
      · rw [if_pos (by simp [hs])] at h ⊢
    · rw [if_neg hc] at h ⊢
      have h2 : (checkSuppliersLoop dev rest).2 = false := h
      show device_links_missing_supplier dev (l :: (checkSuppliersLoop dev rest).1) = _
      rw [missing_supplier_cons, missing_supplier_cons, ih h2]

/-- C6: check_suppliers sets the consumer's status to PROBING on both
paths; it fails with retryLater exactly when some non-stateless link to a
supplier is not AVAILABLE, in which case every link to a supplier
currently in CONSUMER_PROBE is reset to AVAILABLE and nothing else
changes; otherwise it marks every non-stateless link to a supplier
CONSUMER_PROBE. -/
theorem C6_check_suppliers (s : CoreState) (dev : Nat) :
    (device_links_check_suppliers s dev).1.links_status dev = DlDevState.DL_DEV_PROBING ∧
    ((device_links_check_suppliers s dev).2 = some ProbeErr.retryLater ↔
      ∃ l ∈ s.links, l.consumer = dev ∧ l.flags.stateless = false ∧
        l.status ≠ DeviceLinkState.DL_STATE_AVAILABLE) ∧
    ((device_links_check_suppliers s dev).2 = some ProbeErr.retryLater →
      (device_links_check_suppliers s dev).1.links =
        device_links_missing_supplier dev s.links) ∧
    ((device_links_check_suppliers s dev).2 = Option.none →
      (device_links_check_suppliers s dev).1.links = s.links.map (checkSuppliersUpd dev)) := by
  cases hb : (checkSuppliersLoop dev s.links).2 with
  | true =>
    refine ⟨by simp [device_links_check_suppliers, hb], ⟨?_, ?_⟩, ?_, ?_⟩
    · intro hcontra
      simp [device_links_check_suppliers, hb] at hcontra
    · rintro ⟨l, hl, hcons, hstl, hst⟩
      exact absurd ((checkLoop_true_iff dev s.links).mp hb l hl hcons hstl) hst
    · intro hcontra
      simp [device_links_check_suppliers, hb] at hcontra
    · intro _
      simp only [device_links_check_suppliers, hb, if_true]
      exact checkLoop_true_links dev s.links hb
  | false =>
    refine ⟨by simp [device_links_check_suppliers, hb], ⟨?_, ?_⟩, ?_, ?_⟩
    · intro _
      have hne : ¬ ∀ l ∈ s.links, l.consumer = dev → l.flags.stateless = false →
          l.status = DeviceLinkState.DL_STATE_AVAILABLE :=
        (not_congr (checkLoop_true_iff dev s.links)).mp (by simp [hb])
      push_neg at hne
      obtain ⟨l, hl, hcons, hstl, hst⟩ := hne
      exact ⟨l, hl, hcons, hstl, hst⟩
    · intro _
      simp [device_links_check_suppliers, hb]
    · intro _
      simp only [device_links_check_suppliers, hb, Bool.false_eq_true, if_false]
      exact checkLoop_false_missing dev s.links hb
    · intro hcontra
      simp [device_links_check_suppliers, hb] at hcontra

theorem C6_check_suppliers_witness :
    (device_links_check_suppliers sampleS 2).1.links_status 2 = DlDevState.DL_DEV_PROBING ∧
    ((device_links_check_suppliers sampleS 2).2 = some ProbeErr.retryLater ↔
      ∃ l ∈ sampleS.links, l.consumer = 2 ∧ l.flags.stateless = false ∧
        l.status ≠ DeviceLinkState.DL_STATE_AVAILABLE) ∧
    ((device_links_check_suppliers sampleS 2).2 = some ProbeErr.retryLater →
      (device_links_check_suppliers sampleS 2).1.links =
        device_links_missing_supplier 2 sampleS.links) ∧
    ((device_links_check_suppliers sampleS 2).2 = Option.none →
      (device_links_check_suppliers sampleS 2).1.links =
        sampleS.links.map (checkSuppliersUpd 2)) :=
  C6_check_suppliers sampleS 2

/-- A pair carrying an error never equals a pair carrying a success. -/
theorem pair_err_ne_ok {x y : CoreState} {e : LinkErr} {l : Link} :
    (x, Except.error e) = (y, Except.ok l) → False := by
  intro h
  have h2 := congrArg Prod.snd h
  simp at h2

/-- find? skips a prefix in which nothing matches. -/
theorem find?_append_none {p : Link → Bool} :
    ∀ {l₁ l₂ : List Link}, l₁.find? p = Option.none →
    (l₁ ++ l₂).find? p = l₂.find? p := by
  intro l₁
  induction l₁ with
  | nil => intro l₂ _; rfl
  | cons x t ih =>
    intro l₂ h
    rw [List.find?_cons] at h
    cases hp : p x with
    | true => rw [hp] at h; exact absurd h (by simp)
    | false =>
      rw [hp] at h
      show List.find? p (x :: (t ++ l₂)) = _
      rw [List.find?_cons, hp]
      exact ih h

/-- The reorder of device_link_add permutes the Ordering List. -/
theorem linkAddedState_order_perm (s : CoreState) (c su : Nat) (flags : LinkFlags) :
    (linkAddedState s c su flags).order ~ s.order := by
  show device_reorder_to_tail s (devFuel s) c s.order ~ s.order
  rw [reorder_eq_applyMoves]
  exact applyMoves_perm _ _

/-- C8: immediately after a successful add_link of (c, su), a second
add_link with the same pair and any valid flags succeeds, returns the
same link object, and leaves the state untouched: no duplicate link is
created. -/
theorem C8_idempotent_relink {s : CoreState} (hr : Reachable s) {c su : Nat}
    {flags flags2 : LinkFlags} {s₁ : CoreState} {l : Link}
    (hc : c ∈ s.devs)
    (h1 : device_link_add s c su flags = (s₁, Except.ok l))
    (hf2 : (flags2.stateless && flags2.autoremove) = false) :
    device_link_add s₁ c su flags2 = (s₁, Except.ok l) := by
  have hinv := reachable_inv hr
  have hcl := coreInv_edgeClosed hinv
  by_cases hf : (flags.stateless && flags.autoremove) = true
  · rw [device_link_add_invalid hf] at h1
    exact absurd h1 pair_err_ne_ok
  · have hf' : (flags.stateless && flags.autoremove) = false := Bool.eq_false_iff.mpr hf
    by_cases hsu : su ∈ s.order
    · cases hdept : device_is_dependent s (devFuel s) c su with
      | true =>
        rw [device_link_add_cycle hf' hsu hdept] at h1
        exact absurd h1 pair_err_ne_ok
      | false =>
        have hnr : ¬ Reaches s c su := dependent_false hinv.acyclic hcl hc hdept
        cases hfind : s.links.find? (fun l => l.supplier == su && l.consumer == c) with
        | some l₀ =>
          rw [device_link_add_existing hf' hsu hdept hfind] at h1
          have hs₁ : s = s₁ := congrArg Prod.fst h1
          have hl0 : l₀ = l := by
            have h2 := congrArg Prod.snd h1
            simpa using h2
          subst hs₁
          rw [hl0] at hfind
          rw [device_link_add_existing hf2 hsu hdept hfind]
        | none =>
          rw [device_link_add_created hf' hsu hdept hfind] at h1
          have hs₁ : linkAddedState s c su flags = s₁ := congrArg Prod.fst h1
          have hl2 : mkLink s c su flags = l := by
            have h2 := congrArg Prod.snd h1
            simpa using h2
          subst hs₁
          subst hl2
          have hperm := linkAddedState_order_perm s c su flags
          have hsu₁ : su ∈ (linkAddedState s c su flags).order := hperm.mem_iff.mpr hsu
          have hdep₁ : device_is_dependent (linkAddedState s c su flags)
              (devFuel (linkAddedState s c su flags)) c su = false := by
            refine Bool.eq_false_iff.mpr (fun ht => ?_)
            exact @not_reaches_append s (linkAddedState s c su flags) (mkLink s c su flags)
              rfl rfl hnr (dependent_sound ht)
          have hfind₁ : (linkAddedState s c su flags).links.find?
              (fun l => l.supplier == su && l.consumer == c) =
              some (mkLink s c su flags) := by
            show (s.links ++ [mkLink s c su flags]).find? _ = _
            rw [find?_append_none hfind]
            simp [mkLink]
          rw [device_link_add_existing hf2 hsu₁ hdep₁ hfind₁]
    · rw [device_link_add_notReady hf' hsu] at h1
      exact absurd h1 pair_err_ne_ok

/-- C10: when add_link returns an already existing link, the state, in
particular the Ordering List, is left exactly unchanged: the reorder to
tail happens only on the creating path. -/
theorem C10_existing_link_frame {s : CoreState} (hr : Reachable s) {c su : Nat}
    {flags : LinkFlags} {s' : CoreState} {l : Link}
    (h : device_link_add s c su flags = (s', Except.ok l))
    (hl : l ∈ s.links) :
    s' = s ∧ s'.order = s.order := by
  have hinv := reachable_inv hr
  by_cases hf : (flags.stateless && flags.autoremove) = true
  · rw [device_link_add_invalid hf] at h
    exact absurd h pair_err_ne_ok
  · have hf' : (flags.stateless && flags.autoremove) = false := Bool.eq_false_iff.mpr hf
    by_cases hsu : su ∈ s.order
    · cases hdept : device_is_dependent s (devFuel s) c su with
      | true =>
        rw [device_link_add_cycle hf' hsu hdept] at h
        exact absurd h pair_err_ne_ok
      | false =>
        cases hfind : s.links.find? (fun l => l.supplier == su && l.consumer == c) with
        | some l₀ =>
          rw [device_link_add_existing hf' hsu hdept hfind] at h
          have hs : s = s' := congrArg Prod.fst h
          exact ⟨hs.symm, by rw [hs]⟩
        | none =>
          rw [device_link_add_created hf' hsu hdept hfind] at h
          have hl2 : mkLink s c su flags = l := by
            have h2 := congrArg Prod.snd h
            simpa using h2
          have hid : l.id < s.nextId := hinv.id_bound l hl
          rw [← hl2] at hid
          simp only [mkLink] at hid
          omega
    · rw [device_link_add_notReady hf' hsu] at h
      exact absurd h pair_err_ne_ok

/-- Outcomes of device_link_add can be compared by cases. -/
instance : DecidableEq (Except LinkErr Link) := fun x y =>
  match x, y with
  | Except.ok a, Except.ok b =>
    if h : a = b then isTrue (by rw [h]) else isFalse (fun hc => h (Except.ok.inj hc))
  | Except.error a, Except.error b =>
    if h : a = b then isTrue (by rw [h]) else isFalse (fun hc => h (Except.error.inj hc))
  | Except.ok _, Except.error _ => isFalse (fun hc => Except.noConfusion hc)
  | Except.error _, Except.ok _ => isFalse (fun hc => Except.noConfusion hc)

/-- The link created in the sample state. -/
def sampleLink : Link :=
  { id := 0, consumer := 2, supplier := 1, flags := sampleFlags,
    status := DeviceLinkState.DL_STATE_DORMANT }

theorem C8_idempotent_relink_witness :
    device_link_add sampleS 2 1 sampleFlags = (sampleS, Except.ok sampleLink) := by
  refine @C8_idempotent_relink sampleC sampleC_reachable 2 1 sampleFlags sampleFlags
    sampleS sampleLink (by decide) ?_ (by decide)
  show device_link_add sampleC 2 1 sampleFlags
      = ((device_link_add sampleC 2 1 sampleFlags).1, Except.ok sampleLink)
  exact Prod.ext rfl (by decide)

theorem C10_existing_link_frame_witness :
    (device_link_add sampleS 2 1 sampleFlags).1 = sampleS ∧
    (device_link_add sampleS 2 1 sampleFlags).1.order = sampleS.order := by
  refine @C10_existing_link_frame sampleS sample_reachable 2 1 sampleFlags
    ((device_link_add sampleS 2 1 sampleFlags).1) sampleLink ?_ (by decide)
  show device_link_add sampleS 2 1 sampleFlags
      = ((device_link_add sampleS 2 1 sampleFlags).1, Except.ok sampleLink)
  exact Prod.ext rfl (by decide)
